import Mathlib

/-!
A verification development for the Telegram referral bot
(`utils.py`, `referral_manager.py`, `data_manager.py`, `bot_handler.py`,
`supabase_manager.py`, `config.py`).

The Python code is shallowly embedded:

* Python `str` values are `String` (internally `List Char`), Python `bytes`
  values are `List Nat` with every entry `< 256`.
* Python `int` is `Int` (arbitrary precision, as in Python); `//` on a
  possibly-negative operand is `Int.fdiv` (Python floor division).
* JSON blob records (`users.json`, `pending.json`, `invite_links.json`) are
  association lists keyed by the same string keys the code uses
  (`str(user_id)`, `f-string` pending keys, the invite-link URL).
* Fallible Python code (`try`/`except` returning a default) becomes a total
  function into `Option`.
* Ambient effects are explicit parameters: `time.time()` becomes a
  `timestamp`/`now : Nat` argument, and the `hashlib.md5(...).hexdigest()[:8]`
  value in `generate_referral_code` becomes a `hashStr : String` argument
  (the source always passes an 8-character lowercase-hex string there, and
  `decode_referral_code` never inspects it).
-/

set_option maxRecDepth 8192

namespace TGBot

/-! ## Decimal digits and Python `str(int)` / `repr(int)` -/

/-- Decimal digit character for `k < 10`. -/
def digitCh (k : Nat) : Char := Char.ofNat ('0'.toNat + k)

/-- The JSON/Python notion of an ASCII decimal digit `[0-9]`
(code points 48–57). -/
def isDigitCh (c : Char) : Bool := 48 ≤ c.toNat && c.toNat ≤ 57

/-- Characters of the decimal representation of a natural number, most
significant digit first, driven by a fuel counter so the definition is
structural (the fuel never runs out: `natStr` feeds it `n` itself and the
quotient shrinks faster). -/
def natStrAux : Nat → Nat → List Char
  | 0, n => [digitCh n]
  | fuel + 1, n =>
    if n < 10 then [digitCh n]
    else natStrAux fuel (n / 10) ++ [digitCh (n % 10)]

/-- The decimal representation of a natural number.  This is what Python's
`str`/`repr` produce for a non-negative `int`, hence also what `json.dumps`
emits for one. -/
def natStr (n : Nat) : List Char := natStrAux n n

theorem natStrAux_congr : ∀ f1 f2 n : Nat, n ≤ f1 → n ≤ f2 → natStrAux f1 n = natStrAux f2 n := by
  intro f1
  induction f1 with
  | zero =>
    intro f2 n h1 h2
    have hn : n = 0 := by omega
    subst hn
    cases f2 <;> simp [natStrAux]
  | succ f1 ih =>
    intro f2 n h1 h2
    cases f2 with
    | zero =>
      have hn : n = 0 := by omega
      subst hn
      simp [natStrAux]
    | succ f2 =>
      by_cases h : n < 10
      · simp [natStrAux, h]
      · have hq : n / 10 < n := Nat.div_lt_self (by omega) (by omega)
        simp only [natStrAux, if_neg h]
        rw [ih f2 (n / 10) (by omega) (by omega)]

/-- The recursion `natStr` implements: last decimal digit appended to the
representation of the quotient. -/
theorem natStr_unfold (n : Nat) :
    natStr n = if n < 10 then [digitCh n] else natStr (n / 10) ++ [digitCh (n % 10)] := by
  by_cases h : n < 10
  · rw [if_pos h]
    cases n with
    | zero => rfl
    | succ m => simp [natStr, natStrAux, h]
  · rw [if_neg h]
    have hq : n / 10 < n := Nat.div_lt_self (by omega) (by omega)
    cases n with
    | zero => omega
    | succ m =>
      show natStrAux (m + 1) (m + 1) = _
      rw [natStrAux, if_neg h, natStr,
        natStrAux_congr m ((m + 1) / 10) ((m + 1) / 10) (by omega) (by omega)]

/-- Python `str(i)` for an arbitrary `int`: optional minus sign, then the
decimal digits of the absolute value. -/
def intStr (i : Int) : List Char :=
  if i < 0 then '-' :: natStr i.natAbs else natStr i.natAbs

/-- Numeric value of a digit character. -/
def digitVal (c : Char) : Nat := c.toNat - '0'.toNat

/-- Value of a list of decimal digit characters (most significant first). -/
def digitsVal (ds : List Char) : Nat :=
  ds.foldl (fun a c => 10 * a + digitVal c) 0

/-- Longest digit run at the head of the input, with the remainder;
the shape of one `\d*` step of the `json` module's number regex. -/
def digitRun : List Char → List Char × List Char
  | [] => ([], [])
  | c :: cs =>
    if isDigitCh c then
      let p := digitRun cs
      (c :: p.1, p.2)
    else ([], c :: cs)

theorem digitCh_isDigit {k : Nat} (h : k < 10) : isDigitCh (digitCh k) = true := by
  interval_cases k <;> decide

theorem digitVal_digitCh {k : Nat} (h : k < 10) : digitVal (digitCh k) = k := by
  interval_cases k <;> decide

theorem natStr_ne_nil (n : Nat) : natStr n ≠ [] := by
  rw [natStr_unfold]
  split <;> simp

theorem natStr_digits (n : Nat) : ∀ c ∈ natStr n, isDigitCh c = true := by
  induction n using Nat.strong_induction_on with
  | _ n ih =>
    rw [natStr_unfold]
    split
    · next h => simpa using digitCh_isDigit h
    · next h =>
      intro c hc
      rcases List.mem_append.mp hc with h1 | h1
      · exact ih (n / 10) (Nat.div_lt_self (by omega) (by omega)) c h1
      · simp only [List.mem_singleton] at h1
        subst h1
        exact digitCh_isDigit (Nat.mod_lt _ (by omega))

theorem digitsVal_append (ds : List Char) (c : Char) :
    digitsVal (ds ++ [c]) = 10 * digitsVal ds + digitVal c := by
  simp [digitsVal, List.foldl_append]

theorem digitsVal_natStr (n : Nat) : digitsVal (natStr n) = n := by
  induction n using Nat.strong_induction_on with
  | _ n ih =>
    rw [natStr_unfold]
    split
    · next h =>
      simp [digitsVal, digitVal_digitCh h]
    · next h =>
      rw [digitsVal_append, ih (n / 10) (Nat.div_lt_self (by omega) (by omega)),
        digitVal_digitCh (Nat.mod_lt _ (by omega))]
      omega

/-- The digit run of a digit list followed by a non-digit boundary is exactly
that list. -/
theorem digitRun_append (ds : List Char) (hds : ∀ c ∈ ds, isDigitCh c = true)
    (rest : List Char) (hrest : digitRun rest = ([], rest)) :
    digitRun (ds ++ rest) = (ds, rest) := by
  induction ds with
  | nil => simpa using hrest
  | cons c t ih =>
    have hc : isDigitCh c = true := hds c (by simp)
    have ht := ih (fun x hx => hds x (by simp [hx]))
    simp [digitRun, hc, ht]

theorem digitRun_stop {rest : List Char}
    (h : rest = [] ∨ ∃ c t, rest = c :: t ∧ isDigitCh c = false) :
    digitRun rest = ([], rest) := by
  rcases h with rfl | ⟨c, t, rfl, hc⟩
  · rfl
  · simp [digitRun, hc]

/-- A nonzero natural's decimal form starts with a nonzero digit. -/
theorem natStr_head_ne_zero {n : Nat} (hn : n ≠ 0) :
    ∃ c t, natStr n = c :: t ∧ isDigitCh c = true ∧ c ≠ '0' := by
  induction n using Nat.strong_induction_on with
  | _ n ih =>
    rw [natStr_unfold]
    split
    · next h =>
      refine ⟨digitCh n, [], rfl, digitCh_isDigit h, ?_⟩
      have : n ≠ 0 := hn
      interval_cases n <;> simp_all <;> decide
    · next h =>
      obtain ⟨c, t, hct, hd, hz⟩ :=
        ih (n / 10) (Nat.div_lt_self (by omega) (by omega)) (by omega)
      exact ⟨c, t ++ [digitCh (n % 10)], by rw [hct]; simp, hd, hz⟩

/-- The decimal form of zero. -/
theorem natStr_zero : natStr 0 = ['0'] := by decide

/-! ## Base64 (`base64.b64encode` / `base64.b64decode`)

`generate_referral_code` calls `base64.b64encode` on the UTF-8 bytes of the
JSON payload; `decode_referral_code` calls `base64.b64decode` inside a
`try`/`except`.  `b64decode` first encodes the `str` argument as ASCII
(raising on any non-ASCII character) and then calls `binascii.a2b_base64`
in its default non-strict mode, which discards characters outside the
base64 alphabet, stops at the first `=`, and raises on a data-character
count that the available padding cannot complete to a multiple of four. -/

/-- The standard-alphabet character for a sextet `n < 64`. -/
def sextChar (n : Nat) : Char :=
  if n < 26 then Char.ofNat ('A'.toNat + n)
  else if n < 52 then Char.ofNat ('a'.toNat + (n - 26))
  else if n < 62 then Char.ofNat ('0'.toNat + (n - 52))
  else if n = 62 then '+' else '/'

/-- Sextet value of a standard-alphabet character, `none` outside the
alphabet.  Code points are written out: 65–90 is `A`–`Z`, 97–122 is `a`–`z`,
48–57 is `0`–`9`. -/
def charSext (c : Char) : Option Nat :=
  if 65 ≤ c.toNat ∧ c.toNat ≤ 90 then some (c.toNat - 65)
  else if 97 ≤ c.toNat ∧ c.toNat ≤ 122 then some (c.toNat - 97 + 26)
  else if 48 ≤ c.toNat ∧ c.toNat ≤ 57 then some (c.toNat - 48 + 52)
  else if c = '+' then some 62
  else if c = '/' then some 63
  else none

/-- `base64.b64encode` on a byte list (entries `< 256`), as characters of the
resulting ASCII `str` after `.decode()`. -/
def b64EncodeBytes : List Nat → List Char
  | b0 :: b1 :: b2 :: rest =>
    sextChar (b0 / 4) :: sextChar (b0 % 4 * 16 + b1 / 16) ::
      sextChar (b1 % 16 * 4 + b2 / 64) :: sextChar (b2 % 64) :: b64EncodeBytes rest
  | [b0, b1] => [sextChar (b0 / 4), sextChar (b0 % 4 * 16 + b1 / 16), sextChar (b1 % 16 * 4), '=']
  | [b0] => [sextChar (b0 / 4), sextChar (b0 % 4 * 16), '=', '=']
  | [] => []

/-- Reassemble bytes from a list of data sextets (the characters before the
first `=`).  A leftover of one sextet cannot be completed and is an error;
leftovers of two or three yield one or two bytes, as in `a2b_base64`. -/
def b64Assemble : List Nat → Option (List Nat)
  | s0 :: s1 :: s2 :: s3 :: rest =>
    (b64Assemble rest).map
      (fun bs => (s0 * 4 + s1 / 16) :: (s1 % 16 * 16 + s2 / 4) :: (s2 % 4 * 64 + s3) :: bs)
  | [] => some []
  | [_] => none
  | [s0, s1] => some [s0 * 4 + s1 / 16]
  | [s0, s1, s2] => some [s0 * 4 + s1 / 16, s1 % 16 * 16 + s2 / 4]

/-- `base64.b64decode` on a `str`: ASCII-encode (fail on a non-ASCII
character), discard characters outside the alphabet and `=`, read data
sextets up to the first `=`, and require any final partial group to be
completed by the padding characters that follow it. -/
def b64Decode (s : List Char) : Option (List Nat) :=
  if s.all (fun c => c.toNat < 128) then
    let kept := s.filter fun c => (charSext c).isSome || c == '='
    let data := kept.takeWhile fun c => !(c == '=')
    let pads := kept.length - data.length
    if data.length % 4 == 1 then none
    else if data.length % 4 == 0 then b64Assemble (data.filterMap charSext)
    else if 4 - data.length % 4 ≤ pads then b64Assemble (data.filterMap charSext)
    else none
  else none

theorem charSext_sextChar {n : Nat} (h : n < 64) : charSext (sextChar n) = some n := by
  have hall : ∀ m < 64, charSext (sextChar m) = some m := by decide
  exact hall n h

/-- Every alphabet character is ASCII and is not a padding or URL-safe
replacement character. -/
theorem charSext_isSome_facts {c : Char} (h : (charSext c).isSome) :
    c.toNat < 128 ∧ c ≠ '=' ∧ c ≠ '-' ∧ c ≠ '_' := by
  revert h
  simp only [charSext]
  split
  · next hr =>
    refine fun _ => ⟨by omega, ?_, ?_, ?_⟩ <;>
      · intro hx; subst hx; revert hr; decide
  · split
    · next hr =>
      refine fun _ => ⟨by omega, ?_, ?_, ?_⟩ <;>
        · intro hx; subst hx; revert hr; decide
    · split
      · next hr =>
        refine fun _ => ⟨by omega, ?_, ?_, ?_⟩ <;>
          · intro hx; subst hx; revert hr; decide
      · split
        · next hr => subst hr; exact fun _ => ⟨by decide, by decide, by decide, by decide⟩
        · split
          · next hr => subst hr; exact fun _ => ⟨by decide, by decide, by decide, by decide⟩
          · simp

theorem sextChar_isSome {n : Nat} (h : n < 64) : (charSext (sextChar n)).isSome := by
  rw [charSext_sextChar h]; rfl

/-- The characters of `b64EncodeBytes` that precede the padding. -/
def b64DataPart : List Nat → List Char
  | b0 :: b1 :: b2 :: rest =>
    sextChar (b0 / 4) :: sextChar (b0 % 4 * 16 + b1 / 16) ::
      sextChar (b1 % 16 * 4 + b2 / 64) :: sextChar (b2 % 64) :: b64DataPart rest
  | [b0, b1] => [sextChar (b0 / 4), sextChar (b0 % 4 * 16 + b1 / 16), sextChar (b1 % 16 * 4)]
  | [b0] => [sextChar (b0 / 4), sextChar (b0 % 4 * 16)]
  | [] => []

/-- Number of `=` characters `b64EncodeBytes` appends. -/
def b64PadLen : List Nat → Nat
  | _ :: _ :: _ :: rest => b64PadLen rest
  | [_, _] => 1
  | [_] => 2
  | [] => 0

theorem b64Encode_eq_data_pad (bs : List Nat) :
    b64EncodeBytes bs = b64DataPart bs ++ List.replicate (b64PadLen bs) '=' := by
  induction bs using b64EncodeBytes.induct with
  | case1 b0 b1 b2 rest ih =>
    simp [b64EncodeBytes, b64DataPart, b64PadLen, ih]
  | case2 b0 b1 => rfl
  | case3 b0 => rfl
  | case4 => rfl

theorem b64DataPart_alphabet (bs : List Nat) (hb : ∀ b ∈ bs, b < 256) :
    ∀ c ∈ b64DataPart bs, (charSext c).isSome := by
  induction bs using b64EncodeBytes.induct with
  | case1 b0 b1 b2 rest ih =>
    have h0 : b0 < 256 := hb b0 (by simp)
    have h1 : b1 < 256 := hb b1 (by simp)
    have h2 : b2 < 256 := hb b2 (by simp)
    intro c hc
    simp only [b64DataPart, List.mem_cons] at hc
    rcases hc with rfl | rfl | rfl | rfl | hc
    · exact sextChar_isSome (by omega)
    · exact sextChar_isSome (by omega)
    · exact sextChar_isSome (by omega)
    · exact sextChar_isSome (by omega)
    · exact ih (fun b h => hb b (by simp [h])) c hc
  | case2 b0 b1 =>
    have h0 : b0 < 256 := hb b0 (by simp)
    have h1 : b1 < 256 := hb b1 (by simp)
    intro c hc
    simp only [b64DataPart, List.mem_cons] at hc
    rcases hc with rfl | rfl | rfl | hc
    · exact sextChar_isSome (by omega)
    · exact sextChar_isSome (by omega)
    · exact sextChar_isSome (by omega)
    · simp at hc
  | case3 b0 =>
    have h0 : b0 < 256 := hb b0 (by simp)
    intro c hc
    simp only [b64DataPart, List.mem_cons] at hc
    rcases hc with rfl | rfl | hc
    · exact sextChar_isSome (by omega)
    · exact sextChar_isSome (by omega)
    · simp at hc
  | case4 => intro c hc; simp [b64DataPart] at hc

theorem b64DataPart_len_pad (bs : List Nat) :
    (b64DataPart bs).length % 4 = 0 ∧ b64PadLen bs = 0 ∨
    (b64DataPart bs).length % 4 = 3 ∧ b64PadLen bs = 1 ∨
    (b64DataPart bs).length % 4 = 2 ∧ b64PadLen bs = 2 := by
  induction bs using b64EncodeBytes.induct with
  | case1 b0 b1 b2 rest ih =>
    simp only [b64DataPart, b64PadLen, List.length_cons]
    omega
  | case2 b0 b1 => simp [b64DataPart, b64PadLen]
  | case3 b0 => simp [b64DataPart, b64PadLen]
  | case4 => simp [b64DataPart, b64PadLen]

theorem b64Assemble_dataPart (bs : List Nat) (hb : ∀ b ∈ bs, b < 256) :
    b64Assemble ((b64DataPart bs).filterMap charSext) = some bs := by
  induction bs using b64EncodeBytes.induct with
  | case1 b0 b1 b2 rest ih =>
    have h0 : b0 < 256 := hb b0 (by simp)
    have h1 : b1 < 256 := hb b1 (by simp)
    have h2 : b2 < 256 := hb b2 (by simp)
    have e0 := charSext_sextChar (n := b0 / 4) (by omega)
    have e1 := charSext_sextChar (n := b0 % 4 * 16 + b1 / 16) (by omega)
    have e2 := charSext_sextChar (n := b1 % 16 * 4 + b2 / 64) (by omega)
    have e3 := charSext_sextChar (n := b2 % 64) (by omega)
    simp only [b64DataPart, List.filterMap_cons, e0, e1, e2, e3,
      ih (fun b h => hb b (by simp [h])), b64Assemble, Option.map_some']
    have r0 : b0 / 4 * 4 + (b0 % 4 * 16 + b1 / 16) / 16 = b0 := by omega
    have r1 : (b0 % 4 * 16 + b1 / 16) % 16 * 16 + (b1 % 16 * 4 + b2 / 64) / 4 = b1 := by omega
    have r2 : (b1 % 16 * 4 + b2 / 64) % 4 * 64 + b2 % 64 = b2 := by omega
    rw [r0, r1, r2]
  | case2 b0 b1 =>
    have h0 : b0 < 256 := hb b0 (by simp)
    have h1 : b1 < 256 := hb b1 (by simp)
    have e0 := charSext_sextChar (n := b0 / 4) (by omega)
    have e1 := charSext_sextChar (n := b0 % 4 * 16 + b1 / 16) (by omega)
    have e2 := charSext_sextChar (n := b1 % 16 * 4) (by omega)
    simp only [b64DataPart, List.filterMap_cons, e0, e1, e2, List.filterMap_nil, b64Assemble]
    have r0 : b0 / 4 * 4 + (b0 % 4 * 16 + b1 / 16) / 16 = b0 := by omega
    have r1 : (b0 % 4 * 16 + b1 / 16) % 16 * 16 + b1 % 16 * 4 / 4 = b1 := by omega
    rw [r0, r1]
  | case3 b0 =>
    have h0 : b0 < 256 := hb b0 (by simp)
    have e0 := charSext_sextChar (n := b0 / 4) (by omega)
    have e1 := charSext_sextChar (n := b0 % 4 * 16) (by omega)
    simp only [b64DataPart, List.filterMap_cons, e0, e1, List.filterMap_nil, b64Assemble]
    have r0 : b0 / 4 * 4 + b0 % 4 * 16 / 16 = b0 := by omega
    rw [r0]
  | case4 => rfl

theorem takeWhile_append_all {α} (p : α → Bool) (l l2 : List α) (h : ∀ x ∈ l, p x = true) :
    List.takeWhile p (l ++ l2) = l ++ List.takeWhile p l2 := by
  induction l with
  | nil => simp
  | cons a t ih =>
    have ha := h a (by simp)
    simp [List.takeWhile_cons, ha, ih (fun x hx => h x (by simp [hx]))]

/-- `b64decode` inverts `b64encode` on byte lists. -/
theorem b64Decode_b64Encode (bs : List Nat) (hb : ∀ b ∈ bs, b < 256) :
    b64Decode (b64EncodeBytes bs) = some bs := by
  have hsplit := b64Encode_eq_data_pad bs
  have halpha := b64DataPart_alphabet bs hb
  have hlp := b64DataPart_len_pad bs
  have hascii : ((b64DataPart bs ++ List.replicate (b64PadLen bs) '=').all
      fun c => c.toNat < 128) = true := by
    simp only [List.all_append, Bool.and_eq_true, List.all_eq_true, decide_eq_true_eq]
    constructor
    · exact fun c hc => (charSext_isSome_facts (halpha c hc)).1
    · intro c hc
      rw [List.eq_of_mem_replicate hc]
      decide
  have hkeep : (b64DataPart bs ++ List.replicate (b64PadLen bs) '=').filter
      (fun c => (charSext c).isSome || c == '=') =
      b64DataPart bs ++ List.replicate (b64PadLen bs) '=' := by
    rw [List.filter_eq_self]
    intro c hc
    rcases List.mem_append.mp hc with h | h
    · simp [halpha c h]
    · rw [List.eq_of_mem_replicate h]; decide
  have htake : (b64DataPart bs ++ List.replicate (b64PadLen bs) '=').takeWhile
      (fun c => !(c == '=')) = b64DataPart bs := by
    rw [takeWhile_append_all _ _ _
      (fun c hc => by
        simp only [Bool.not_eq_true', beq_eq_false_iff_ne]
        exact (charSext_isSome_facts (halpha c hc)).2.1)]
    cases hp : b64PadLen bs with
    | zero => simp
    | succ k => simp [List.replicate_succ, List.takeWhile_cons]
  rw [b64Decode, hsplit, if_pos hascii]
  simp only [hkeep, htake, List.length_append, List.length_replicate,
    Nat.add_sub_cancel_left]
  rcases hlp with ⟨h4, hp⟩ | ⟨h4, hp⟩ | ⟨h4, hp⟩ <;>
    simp [h4, hp, b64Assemble_dataPart bs hb]

/-! ## UTF-8 (`str.encode()` / `bytes.decode()`)

`generate_referral_code` calls `json_str.encode()` and
`decode_referral_code` calls `base64.b64decode(code).decode()`; both default
to strict UTF-8.  Strict decoding rejects continuation-byte errors, overlong
forms, surrogates and code points above `0x10FFFF`. -/

/-- `str.encode()` — UTF-8 bytes of a character sequence. -/
def utf8Encode : List Char → List Nat
  | [] => []
  | c :: cs =>
    let n := c.toNat
    (if n < 0x80 then [n]
     else if n < 0x800 then [0xC0 + n / 64, 0x80 + n % 64]
     else if n < 0x10000 then [0xE0 + n / 4096, 0x80 + n / 64 % 64, 0x80 + n % 64]
     else [0xF0 + n / 262144, 0x80 + n / 4096 % 64, 0x80 + n / 64 % 64, 0x80 + n % 64])
      ++ utf8Encode cs

/-- Is `b` a UTF-8 continuation byte? -/
def isCont (b : Nat) : Bool := 0x80 ≤ b && b < 0xC0

/-- Decode one code point of strict UTF-8: the character and the remaining
bytes, or `none` on a malformed prefix (truncated sequence, bad continuation
byte, overlong form, surrogate, or value above `0x10FFFF`). -/
def utf8DecodeOne : List Nat → Option (Char × List Nat)
  | [] => none
  | b :: bs =>
    if b < 0x80 then some (Char.ofNat b, bs)
    else if b < 0xC2 then none
    else if b < 0xE0 then
      match bs with
      | b1 :: bs2 =>
        if isCont b1 then some (Char.ofNat ((b - 0xC0) * 64 + (b1 - 0x80)), bs2) else none
      | [] => none
    else if b < 0xF0 then
      match bs with
      | b1 :: b2 :: bs3 =>
        let lo := if b = 0xE0 then 0xA0 else 0x80
        let hi := if b = 0xED then 0xA0 else 0xC0
        if (lo ≤ b1 && b1 < hi) && isCont b2 then
          some (Char.ofNat ((b - 0xE0) * 4096 + (b1 - 0x80) * 64 + (b2 - 0x80)), bs3)
        else none
      | _ => none
    else if b < 0xF5 then
      match bs with
      | b1 :: b2 :: b3 :: bs4 =>
        let lo := if b = 0xF0 then 0x90 else 0x80
        let hi := if b = 0xF4 then 0x90 else 0xC0
        if ((lo ≤ b1 && b1 < hi) && isCont b2) && isCont b3 then
          some (Char.ofNat
            ((b - 0xF0) * 262144 + (b1 - 0x80) * 4096 + (b2 - 0x80) * 64 + (b3 - 0x80)), bs4)
        else none
      | _ => none
    else none

/-- `bytes.decode()` — strict UTF-8 decoding, `none` on any decoding error
(the caller catches `UnicodeDecodeError`).  The loop is driven by a fuel
counter set to the byte count; since `utf8DecodeOne` always consumes at
least one byte, that fuel can never run out. -/
def utf8DecodeLoop : Nat → List Nat → Option (List Char)
  | _, [] => some []
  | 0, _ :: _ => none
  | fuel + 1, b :: tl =>
    match utf8DecodeOne (b :: tl) with
    | some (c, rest) => (utf8DecodeLoop fuel rest).map (fun cs => c :: cs)
    | none => none

def utf8Decode (bs : List Nat) : Option (List Char) :=
  utf8DecodeLoop bs.length bs

theorem char_toNat_lt (c : Char) : c.toNat < 1114112 := by
  rcases c.valid with h | h
  · exact Nat.lt_trans h (by norm_num)
  · exact h.2

theorem utf8Encode_lt_256 (cs : List Char) : ∀ b ∈ utf8Encode cs, b < 256 := by
  induction cs with
  | nil => simp [utf8Encode]
  | cons c t ih =>
    intro b hb
    have hv : c.toNat < 1114112 := char_toNat_lt c
    simp only [utf8Encode, List.mem_append] at hb
    rcases hb with hb | hb
    · by_cases h1 : c.toNat < 0x80
      · simp only [if_pos h1, List.mem_singleton] at hb
        omega
      · by_cases h2 : c.toNat < 0x800
        · simp only [if_neg h1, if_pos h2, List.mem_cons, List.not_mem_nil, or_false] at hb
          rcases hb with rfl | rfl <;> omega
        · by_cases h3 : c.toNat < 0x10000
          · simp only [if_neg h1, if_neg h2, if_pos h3, List.mem_cons,
              List.not_mem_nil, or_false] at hb
            rcases hb with rfl | rfl | rfl <;> omega
          · simp only [if_neg h1, if_neg h2, if_neg h3, List.mem_cons,
              List.not_mem_nil, or_false] at hb
            rcases hb with rfl | rfl | rfl | rfl <;> omega
    · exact ih b hb

/-- Strict UTF-8 decoding inverts encoding on ASCII-only character lists
(the only case the referral payloads exercise: `json.dumps` output with
`ensure_ascii=True` is pure ASCII). -/
theorem utf8Decode_utf8Encode_ascii (cs : List Char) (h : ∀ c ∈ cs, c.toNat < 128) :
    utf8Decode (utf8Encode cs) = some cs := by
  induction cs with
  | nil => rfl
  | cons c t ih =>
    have hc : c.toNat < 128 := h c (by simp)
    have henc : utf8Encode (c :: t) = c.toNat :: utf8Encode t := by
      simp [utf8Encode, hc]
    have hone : utf8DecodeOne (c.toNat :: utf8Encode t) =
        some (Char.ofNat c.toNat, utf8Encode t) := by
      rw [utf8DecodeOne.eq_def]
      simp [hc]
    rw [utf8Decode, henc, List.length_cons, utf8DecodeLoop]
    simp only [hone]
    rw [show utf8DecodeLoop (utf8Encode t).length (utf8Encode t)
        = utf8Decode (utf8Encode t) from rfl,
      ih (fun x hx => h x (by simp [hx]))]
    simp [Char.ofNat_toNat]

/-! ## JSON (`json.loads` / `json.dumps`)

`decode_referral_code` calls `json.loads` on the decoded payload and
`generate_referral_code` calls `json.dumps` on a four-field dict.  The
parser below models CPython's `json.decoder`/`json.scanner`: numbers follow
the regex `(-?(?:0|[1-9]\d*))(\.\d+)?([eE][-+]?\d+)?` (an integer when the
fraction and exponent groups are absent), `NaN`, `Infinity` and `-Infinity`
are accepted, strings are scanned in strict mode (unescaped control
characters rejected), whitespace is ` \t\n\r` between tokens, and duplicate
object keys are resolved last-wins when the resulting dict is indexed.

One deviation: a `\uXXXX` escape that is a lone surrogate produces a
lone-surrogate `str` in Python, which no Lean `Char` can represent; the
embedded parser rejects it.  No referral payload contains `\u` escapes. -/

/-- A parsed JSON value as Python's `json.loads` produces it.  Values with a
fraction or exponent part become Python floats; their components are kept
symbolically (`-1^neg * ip.frac * 10^(±exp)`) since no claim computes with
them.  `nonfinite` covers the `NaN`/`Infinity`/`-Infinity` extensions. -/
inductive PyJson where
  | null
  | bool (b : Bool)
  | int (n : Int)
  | float (neg : Bool) (ip : Nat) (frac : List Char) (expNeg : Bool) (expDs : List Char)
  | nonfinite (lex : String)
  | str (s : String)
  | arr (xs : List PyJson)
  | obj (kvs : List (String × PyJson))

/-- Whitespace skipped by the `json` module between tokens. -/
def skipWs : List Char → List Char
  | c :: r => if c = ' ' ∨ c = '\t' ∨ c = '\n' ∨ c = '\r' then skipWs r else c :: r
  | [] => []

/-- Value of one hexadecimal digit (`0`–`9`, `a`–`f`, `A`–`F`). -/
def hexDigitVal (c : Char) : Option Nat :=
  if 48 ≤ c.toNat ∧ c.toNat ≤ 57 then some (c.toNat - 48)
  else if 97 ≤ c.toNat ∧ c.toNat ≤ 102 then some (c.toNat - 97 + 10)
  else if 65 ≤ c.toNat ∧ c.toNat ≤ 70 then some (c.toNat - 65 + 10)
  else none

def hex4 (a b c d : Char) : Option Nat := do
  let va ← hexDigitVal a
  let vb ← hexDigitVal b
  let vc ← hexDigitVal c
  let vd ← hexDigitVal d
  return ((va * 16 + vb) * 16 + vc) * 16 + vd

/-- The two-character escapes of the JSON string grammar. -/
def escCh : Char → Option Char
  | '"' => some '"'
  | '\\' => some '\\'
  | '/' => some '/'
  | 'b' => some (Char.ofNat 8)
  | 'f' => some (Char.ofNat 12)
  | 'n' => some '\n'
  | 'r' => some '\r'
  | 't' => some '\t'
  | _ => none

/-- Decode one escape sequence after a backslash: the named single-character
escapes, or `\uXXXX` with surrogate-pair joining.  A `\uXXXX` escape that is
a lone surrogate produces a lone-surrogate `str` in Python, which no Lean
`Char` can represent; the embedding rejects it (no referral payload contains
`\u` escapes). -/
def parseEscapeSeq : List Char → Option (Char × List Char)
  | 'u' :: a :: b :: c :: d :: r2 =>
    (match hex4 a b c d with
     | none => none
     | some n =>
       if n < 0xD800 ∨ 0xDFFF < n then some (Char.ofNat n, r2)
       else if n < 0xDC00 then
         match r2 with
         | '\\' :: 'u' :: a2 :: b2 :: c2 :: d2 :: r3 =>
           (match hex4 a2 b2 c2 d2 with
            | some m =>
              if 0xDC00 ≤ m ∧ m ≤ 0xDFFF then
                some (Char.ofNat (0x10000 + (n - 0xD800) * 1024 + (m - 0xDC00)), r3)
              else none
            | none => none)
         | _ => none
       else none)
  | e :: r => (escCh e).map (fun ch => (ch, r))
  | [] => none

/-- Scan a JSON string body after the opening quote (`py_scanstring` with
`strict=True`): plain characters must be `0x20` or above, escapes go through
`parseEscapeSeq`.  The fuel is set to the input length by `parseJString`;
every step consumes at least one character, so it never runs out. -/
def parseJStringLoop : Nat → List Char → List Char → Option (String × List Char)
  | _, _, [] => none
  | 0, _, _ :: _ => none
  | fuel + 1, acc, c :: r =>
    if c = '"' then some (⟨acc.reverse⟩, r)
    else if c = '\\' then
      match parseEscapeSeq r with
      | some (ch, r2) => parseJStringLoop fuel (ch :: acc) r2
      | none => none
    else if c.toNat < 0x20 then none
    else parseJStringLoop fuel (c :: acc) r

def parseJString (cs : List Char) : Option (String × List Char) :=
  parseJStringLoop cs.length [] cs

/-- The `(-?(?:0|[1-9]\d*))` integer group: a bare `0`, or a nonzero digit
followed by a digit run. -/
def parseIntPart : List Char → Option (Nat × List Char)
  | [] => none
  | c :: cs =>
    if c = '0' then some (0, cs)
    else if isDigitCh c then
      let p := digitRun cs
      some (digitsVal (c :: p.1), p.2)
    else none

/-- The optional leading `-` of the number regex. -/
def numSign : List Char → Bool × List Char
  | '-' :: r => (true, r)
  | cs => (false, cs)

/-- The optional `(\.\d+)?` fraction group: digits after a dot, backtracking
to the undotted position when no digit follows the dot. -/
def numFrac (cs2 : List Char) : List Char × List Char :=
  match cs2 with
  | '.' :: r =>
    let p := digitRun r
    if p.1.isEmpty then ([], cs2) else (p.1, p.2)
  | _ => ([], cs2)

/-- The optional `([eE][-+]?\d+)?` exponent group, backtracking when
incomplete: present-flag, sign, digits, remainder. -/
def numExp (cs3 : List Char) : Bool × Bool × List Char × List Char :=
  match cs3 with
  | e :: r =>
    if e = 'e' ∨ e = 'E' then
      let sr : Bool × List Char :=
        match r with
        | '+' :: r2 => (false, r2)
        | '-' :: r2 => (true, r2)
        | _ => (false, r)
      let p := digitRun sr.2
      if p.1.isEmpty then (false, false, [], cs3) else (true, sr.1, p.1, p.2)
    else (false, false, [], cs3)
  | [] => (false, false, [], cs3)

/-- The scanner's `NUMBER_RE` match: optional sign and integer part, then
the optional fraction and exponent groups.  An integer when both optional
groups are absent, a float otherwise. -/
def parseNumber (cs : List Char) : Option (PyJson × List Char) :=
  let sp := numSign cs
  match parseIntPart sp.2 with
  | none => none
  | some (ip, cs2) =>
    let fr := numFrac cs2
    let ex := numExp fr.2
    if fr.1.isEmpty ∧ ¬ex.1 then
      some (.int (if sp.1 then -(ip : Int) else (ip : Int)), ex.2.2.2)
    else
      some (.float sp.1 ip fr.1 ex.2.1 ex.2.2.1, ex.2.2.2)

/-- The scanner's trailing constant checks (`NaN`, `Infinity`,
`-Infinity`), tried after the number regex fails. -/
def parseConstant : List Char → Option (PyJson × List Char)
  | 'N' :: 'a' :: 'N' :: r => some (.nonfinite "NaN", r)
  | 'I' :: 'n' :: 'f' :: 'i' :: 'n' :: 'i' :: 't' :: 'y' :: r => some (.nonfinite "Infinity", r)
  | '-' :: 'I' :: 'n' :: 'f' :: 'i' :: 'n' :: 'i' :: 't' :: 'y' :: r =>
    some (.nonfinite "-Infinity", r)
  | _ => none

mutual

/-- `scan_once`: dispatch on the first character.  The fuel only decreases
on recursion into containers and container elements, and `json_loads` feeds
it one more than the input length, so it never runs out. -/
def parseValue : Nat → List Char → Option (PyJson × List Char)
  | 0, _ => none
  | fuel + 1, cs =>
    match cs with
    | [] => none
    | c :: r =>
      if c = '"' then
        match parseJString r with
        | some (s, r2) => some (.str s, r2)
        | none => none
      else if c = '{' then
        match skipWs r with
        | '}' :: r2 => some (.obj [], r2)
        | '"' :: r2 =>
          match parseMembersLoop fuel r2 with
          | some (kvs, r3) => some (.obj kvs, r3)
          | none => none
        | _ => none
      else if c = '[' then
        match skipWs r with
        | ']' :: r2 => some (.arr [], r2)
        | r2 =>
          match parseItemsLoop fuel r2 with
          | some (vs, r3) => some (.arr vs, r3)
          | none => none
      else if c = 'n' then
        match r with
        | 'u' :: 'l' :: 'l' :: r2 => some (.null, r2)
        | _ => none
      else if c = 't' then
        match r with
        | 'r' :: 'u' :: 'e' :: r2 => some (.bool true, r2)
        | _ => none
      else if c = 'f' then
        match r with
        | 'a' :: 'l' :: 's' :: 'e' :: r2 => some (.bool false, r2)
        | _ => none
      else
        match parseNumber (c :: r) with
        | some v => some v
        | none => parseConstant (c :: r)

/-- `JSONObject`'s member loop, entered with the input positioned right
after a key's opening quote; whitespace is skipped around `:` and after
`,`, and the loop ends at `}`. -/
def parseMembersLoop : Nat → List Char → Option (List (String × PyJson) × List Char)
  | 0, _ => none
  | fuel + 1, cs =>
    match parseJString cs with
    | none => none
    | some (key, r1) =>
      match skipWs r1 with
      | ':' :: r2 =>
        match parseValue fuel (skipWs r2) with
        | none => none
        | some (v, r3) =>
          match skipWs r3 with
          | '}' :: r4 => some ([(key, v)], r4)
          | ',' :: r4 =>
            match skipWs r4 with
            | '"' :: r5 =>
              match parseMembersLoop fuel r5 with
              | some (kvs, r6) => some ((key, v) :: kvs, r6)
              | none => none
            | _ => none
          | _ => none
      | _ => none

/-- `JSONArray`'s element loop for a non-empty array. -/
def parseItemsLoop : Nat → List Char → Option (List PyJson × List Char)
  | 0, _ => none
  | fuel + 1, cs =>
    match parseValue fuel cs with
    | none => none
    | some (v, r1) =>
      match skipWs r1 with
      | ']' :: r2 => some ([v], r2)
      | ',' :: r2 =>
        match parseItemsLoop fuel (skipWs r2) with
        | some (vs, r3) => some (v :: vs, r3)
        | none => none
      | _ => none

end

/-- `json.loads`: skip leading whitespace, parse one document, and reject
trailing non-whitespace. -/
def json_loads (s : List Char) : Option PyJson :=
  match parseValue ((skipWs s).length + 1) (skipWs s) with
  | none => none
  | some (v, rest) => if skipWs rest = [] then some v else none

/-- Indexing the Python dict built from a parsed member list: a later
duplicate key overwrites an earlier one, so the last binding wins. -/
def objGet (kvs : List (String × PyJson)) (k : String) : Option PyJson :=
  kvs.foldl (fun acc kv => if kv.1 = k then some kv.2 else acc) none

def beginsWith : List Char → List Char → Bool
  | [], _ => true
  | _ :: _, [] => false
  | a :: as1, b :: bs => a == b && beginsWith as1 bs

def containsSeq (txt pat : List Char) : Bool :=
  match txt with
  | [] => pat.isEmpty
  | _ :: t => beginsWith pat txt || containsSeq t pat

/-- Python's `field in value` for the value `json.loads` returned: dict key
membership, list element equality (a `str` field equals no non-`str`
element), substring containment on a `str`, and a `TypeError` (`none`) on
the non-container types. -/
def pyContains (v : PyJson) (k : String) : Option Bool :=
  match v with
  | .obj kvs => some (objGet kvs k).isSome
  | .arr xs =>
    some (xs.any fun x => match x with | .str s => s == k | _ => false)
  | .str s => some (containsSeq s.toList k.toList)
  | _ => none

/-! ## `json.dumps` of the referral payload -/

/-- Lowercase hex digit character for `n < 16`. -/
def toHexCh (n : Nat) : Char := if n < 10 then Char.ofNat (48 + n) else Char.ofNat (97 + n - 10)

def uEscape (n : Nat) : List Char :=
  ['\\', 'u', toHexCh (n / 4096 % 16), toHexCh (n / 256 % 16), toHexCh (n / 16 % 16),
    toHexCh (n % 16)]

/-- One character as `json.dumps` (with its default `ensure_ascii=True`)
writes it: the named two-character escapes, `\uXXXX` (with surrogate pairs)
for other control or non-ASCII characters, the character itself otherwise. -/
def escapeChAscii (c : Char) : List Char :=
  if c = '\\' then ['\\', '\\']
  else if c = '"' then ['\\', '"']
  else if c = '\n' then ['\\', 'n']
  else if c = '\r' then ['\\', 'r']
  else if c = '\t' then ['\\', 't']
  else if c.toNat = 8 then ['\\', 'b']
  else if c.toNat = 12 then ['\\', 'f']
  else if c.toNat < 0x20 ∨ 0x7E < c.toNat then
    if c.toNat < 0x10000 then uEscape c.toNat
    else
      uEscape (0xD800 + (c.toNat - 0x10000) / 1024) ++ uEscape (0xDC00 + (c.toNat - 0x10000) % 1024)
  else [c]

/-- A JSON string literal as `json.dumps` writes it. -/
def jstrLit (s : String) : List Char := '"' :: (s.toList.flatMap escapeChAscii ++ ['"'])

/-- `json.dumps(referral_data)` for the dict `generate_referral_code`
builds: insertion-ordered keys, the default `', '` and `': '` separators,
integers via `repr`. -/
def dumpsReferral (u c : Int) (t : Nat) (h : String) : List Char :=
  '{' :: (jstrLit "referrer_id" ++ ':' :: ' ' :: (intStr u
    ++ ',' :: ' ' :: (jstrLit "channel_id" ++ ':' :: ' ' :: (intStr c
    ++ ',' :: ' ' :: (jstrLit "timestamp" ++ ':' :: ' ' :: (natStr t
    ++ ',' :: ' ' :: (jstrLit "hash" ++ ':' :: ' ' :: (jstrLit h ++ ['}']))))))))

/-! ## `utils.py`: the referral code codec -/

/-- `.replace('+', '-').replace('/', '_')` of `generate_referral_code`. -/
def toUrlSafe (c : Char) : Char := if c = '+' then '-' else if c = '/' then '_' else c

/-- `.replace('-', '+').replace('_', '/')` of `decode_referral_code`. -/
def fromUrlSafe (c : Char) : Char := if c = '-' then '+' else if c = '_' then '/' else c

/-- `generate_referral_code(user_id, channel_id)`.  The source derives
`timestamp` from `time.time()` and `hashStr` from
`hashlib.md5(f"{user_id}_{channel_id}_{timestamp}".encode()).hexdigest()[:8]`
— an eight-character lowercase-hex string; both are explicit parameters
here.  The JSON payload is base64-encoded, `+`/`/` are replaced by `-`/`_`,
and the `=` padding is stripped. -/
def generate_referral_code (user_id channel_id : Int) (timestamp : Nat) (hashStr : String) :
    String :=
  ⟨((b64EncodeBytes (utf8Encode (dumpsReferral user_id channel_id timestamp hashStr))).map
      toUrlSafe).filter fun c => !(c == '=')⟩

/-- The padding restoration of `decode_referral_code`: `padding = 4 -
len(code) % 4`, appended when it is not 4 — that is, when the length is not
already a multiple of four. -/
def rePad (s : List Char) : List Char :=
  if s.length % 4 ≠ 0 then s ++ List.replicate (4 - s.length % 4) '=' else s

/-- The decoding pipeline of `decode_referral_code` up to and including
`json.loads`: character restoration, padding, base64, UTF-8, JSON. -/
def decodePayload (referral_code : String) : Option PyJson :=
  match b64Decode (rePad (referral_code.toList.map fromUrlSafe)) with
  | none => none
  | some bytes =>
    match utf8Decode bytes with
    | none => none
    | some chars => json_loads chars

/-- `decode_referral_code(referral_code)`: the pipeline above followed by
`all(field in referral_data for field in ['referrer_id', 'channel_id',
'timestamp'])`; any exception along the way (bad base64, bad UTF-8, bad
JSON, or a `TypeError` from `in` on a non-container) and any missing field
produce `None`.  The `hash` field is never examined. -/
def decode_referral_code (referral_code : String) : Option PyJson :=
  match decodePayload referral_code with
  | none => none
  | some v =>
    match pyContains v "referrer_id" with
    | none => none
    | some b1 =>
      if b1 then
        match pyContains v "channel_id" with
        | none => none
        | some b2 =>
          if b2 then
            match pyContains v "timestamp" with
            | none => none
            | some b3 => if b3 then some v else none
          else none
      else none

/-! ## Data model (`data_manager.py` flat-file backend)

The JSON files are dicts from string keys to records; they are embedded as
association lists with dict semantics (`lookupKey` finds the first — in a
Python dict, only — binding; `setKey` replaces it or appends).  The records
below carry exactly the keys the bot code writes; `.get(key, default)`
accesses on such records are plain field accesses. -/

def lookupKey {α : Type} : List (String × α) → String → Option α
  | [], _ => none
  | kv :: rest, k => if kv.1 = k then some kv.2 else lookupKey rest k

def setKey {α : Type} : List (String × α) → String → α → List (String × α)
  | [], k, v => [(k, v)]
  | kv :: rest, k, v => if kv.1 = k then (k, v) :: rest else kv :: setKey rest k v

def delKey {α : Type} : List (String × α) → String → List (String × α)
  | [], _ => []
  | kv :: rest, k => if kv.1 = k then rest else kv :: delKey rest k

/-- Python `str(i)` as a `String`, used for every dict key derived from a
numeric id. -/
def pyIntStr (i : Int) : String := ⟨intStr i⟩

/-- One entry of a channel's `referral_history` list:
`{'user_id': ..., 'timestamp': ..., 'action': 'joined' | 'left'}`. -/
structure HistoryEvent where
  user_id : Int
  timestamp : Nat
  action : String

/-- The per-(user, channel) record `referral_manager.py` creates:
`{'successful_referrals': 0, 'rewards_claimed': 0, 'referred_users': [],
'referral_history': []}`.  Counters are `Int` (Python ints). -/
structure ChannelData where
  successful_referrals : Int
  rewards_claimed : Int
  referred_users : List Int
  referral_history : List HistoryEvent

/-- The fresh channel record. -/
def ChannelData.init : ChannelData :=
  { successful_referrals := 0, rewards_claimed := 0, referred_users := [],
    referral_history := [] }

/-- A user record in `users.json`: `{'channels': {...}}` plus the
`last_updated` stamp `save_user_data` maintains. -/
structure UserData where
  channels : List (String × ChannelData)
  last_updated : Option Nat

abbrev UserStore := List (String × UserData)

/-- `DataManager.get_user_data`: `users.get(str(user_id))`. -/
def get_user_data (users : UserStore) (user_id : Int) : Option UserData :=
  lookupKey users (pyIntStr user_id)

/-- `DataManager.save_user_data`: upsert under `str(user_id)`, stamping
`last_updated` with the current time. -/
def save_user_data (users : UserStore) (user_id : Int) (d : UserData) (now : Nat) : UserStore :=
  setKey users (pyIntStr user_id) { d with last_updated := some now }

/-- A `pending.json` record:
`{'user_id': ..., 'channel_id': ..., 'referrer_id': ..., 'timestamp': ...}`. -/
structure PendingRecord where
  user_id : Int
  channel_id : Int
  referrer_id : Int
  timestamp : Nat

abbrev PendingStore := List (String × PendingRecord)

/-- The pending-referral dict key `f"{user_id}_{channel_id}"`. -/
def pendingKey (user_id channel_id : Int) : String :=
  ⟨intStr user_id ++ '_' :: intStr channel_id⟩

/-- `DataManager.add_pending_referral`. -/
def add_pending_referral (p : PendingStore) (user_id channel_id referrer_id : Int) (now : Nat) :
    PendingStore :=
  setKey p (pendingKey user_id channel_id)
    { user_id := user_id, channel_id := channel_id, referrer_id := referrer_id, timestamp := now }

/-- `DataManager.get_pending_referral`. -/
def get_pending_referral (p : PendingStore) (user_id channel_id : Int) : Option PendingRecord :=
  lookupKey p (pendingKey user_id channel_id)

/-- `DataManager.remove_pending_referral`. -/
def remove_pending_referral (p : PendingStore) (user_id channel_id : Int) : PendingStore :=
  delKey p (pendingKey user_id channel_id)

/-- An `invite_links.json` record: `{"user_id": ..., "chat_id": ...,
"referral_code": ..., "created_at": ...}`, keyed by the invite-link URL. -/
structure InviteMapping where
  user_id : Int
  chat_id : Int
  referral_code : String
  created_at : Nat

abbrev InviteStore := List (String × InviteMapping)

/-! ## `referral_manager.py` -/

/-- `Config.REFERRAL_TARGET` — hardcoded to 10 in `config.py`. -/
def REFERRAL_TARGET : Int := 10

/-- `ReferralManager.process_successful_referral(referrer_id, channel_id,
referred_user_id)`: read the referrer's record (creating `{'channels': {}}`
and the channel entry as needed), increment `successful_referrals`, append
the referred user and a `'joined'` history event, save, and return the new
`successful_referrals` count. -/
def process_successful_referral (users : UserStore)
    (referrer_id channel_id referred_user_id : Int) (now : Nat) : Int × UserStore :=
  let referrer_data := (get_user_data users referrer_id).getD
    { channels := [], last_updated := none }
  let channel_key := pyIntStr channel_id
  let chd := (lookupKey referrer_data.channels channel_key).getD ChannelData.init
  let chd' : ChannelData :=
    { chd with
      successful_referrals := chd.successful_referrals + 1,
      referred_users := chd.referred_users ++ [referred_user_id],
      referral_history := chd.referral_history ++
        [{ user_id := referred_user_id, timestamp := now, action := "joined" }] }
  let rd' := { referrer_data with channels := setKey referrer_data.channels channel_key chd' }
  (chd'.successful_referrals, save_user_data users referrer_id rd' now)

/-- `ReferralManager.process_referral_leave(referrer_id, channel_id,
left_user_id)`: nothing happens unless the referrer, the channel entry, and
the left user's membership in `referred_users` all exist; then
`successful_referrals` is decremented only when positive, the first
occurrence of the user is removed (`list.remove`), a `'left'` event is
appended, and the record is saved. -/
def process_referral_leave (users : UserStore)
    (referrer_id channel_id left_user_id : Int) (now : Nat) : UserStore :=
  match get_user_data users referrer_id with
  | none => users
  | some rd =>
    match lookupKey rd.channels (pyIntStr channel_id) with
    | none => users
    | some chd =>
      if left_user_id ∈ chd.referred_users then
        let chd' : ChannelData :=
          { chd with
            successful_referrals :=
              if 0 < chd.successful_referrals then chd.successful_referrals - 1
              else chd.successful_referrals,
            referred_users := chd.referred_users.erase left_user_id,
            referral_history := chd.referral_history ++
              [{ user_id := left_user_id, timestamp := now, action := "left" }] }
        save_user_data users referrer_id
          { rd with channels := setKey rd.channels (pyIntStr channel_id) chd' } now
      else users

/-- The outcome dict of `ReferralManager.claim_reward`. -/
inductive ClaimOutcome where
  | failure (message : String)
  | success (message : String) (total_claimed : Int)

/-- The message of the no-rewards branch, with `REFERRAL_TARGET`
interpolated. -/
def noRewardsMessage : String :=
  "No rewards available. You need " ++ toString REFERRAL_TARGET ++
    " successful referrals per reward."

/-- `ReferralManager.claim_reward(user_id, channel_id)`:
`total_eligible_rewards = successful_referrals // REFERRAL_TARGET`;
`available_rewards = total_eligible_rewards - rewards_claimed`; fail when
`available_rewards <= 0`, otherwise increment `rewards_claimed` by one, save,
and return the new total. -/
def claim_reward (users : UserStore) (user_id channel_id : Int) (now : Nat) :
    ClaimOutcome × UserStore :=
  match get_user_data users user_id with
  | none => (.failure "User data not found.", users)
  | some ud =>
    match lookupKey ud.channels (pyIntStr channel_id) with
    | none => (.failure "Channel data not found.", users)
    | some chd =>
      let total_eligible_rewards := Int.fdiv chd.successful_referrals REFERRAL_TARGET
      let available_rewards := total_eligible_rewards - chd.rewards_claimed
      if available_rewards ≤ 0 then (.failure noRewardsMessage, users)
      else
        let chd' := { chd with rewards_claimed := chd.rewards_claimed + 1 }
        (.success "Reward claimed successfully!" chd'.rewards_claimed,
          save_user_data users user_id
            { ud with channels := setKey ud.channels (pyIntStr channel_id) chd' } now)

/-! ## `bot_handler.py` -/

/-- `TelegramReferralBot._get_referrer_from_link`: look the invite link up in
`data/invite_links.json` and return the stored `user_id`; a missing file or
entry is `None`. -/
def get_referrer_from_link (links : InviteStore) (invite_link : String) : Option Int :=
  (lookupKey links invite_link).map (fun m => m.user_id)

/-- The referral-attribution portion of
`TelegramReferralBot._handle_user_join` (its body up to and including the
`process_successful_referral` call): a pending referral for `(user_id,
chat_id)` wins and is removed; otherwise an observed invite link is resolved
through the mapping file; `if referrer_id:` then credits the referrer —
so a falsy (zero) resolved id credits no one.  Returns the resolved
`referrer_id` variable, the user store, and the pending store.  (In the
source the invite-link branch calls the `async` helper without `await`; the
lookup it performs is modeled, the claims below only exercise the
pending-referral branch.) -/
def handle_user_join_attribution (users : UserStore) (pending : PendingStore)
    (links : InviteStore) (chat_id user_id : Int) (invite_link : Option String) (now : Nat) :
    Option Int × UserStore × PendingStore :=
  let resolved : Option Int × PendingStore :=
    match get_pending_referral pending user_id chat_id with
    | some pr => (some pr.referrer_id, remove_pending_referral pending user_id chat_id)
    | none =>
      match invite_link with
      | some link => (get_referrer_from_link links link, pending)
      | none => (none, pending)
  match resolved.1 with
  | some rid =>
    if rid ≠ 0 then
      (some rid, (process_successful_referral users rid chat_id user_id now).2, resolved.2)
    else (some rid, users, resolved.2)
  | none => (none, users, resolved.2)

/-- `==` between a value read from a decoded referral payload and a Python
`int`.  `True == 1` and `False == 0` hold in Python; a float lexeme is never
numerically compared here (no theorem below reaches that case), and no other
JSON value equals an `int`. -/
def pyEqInt (v : PyJson) (i : Int) : Bool :=
  match v with
  | .int n => n == i
  | .bool b => (b && i == 1) || (!b && i == 0)
  | _ => false

/-- Replies `_handle_referral_join` can send before/instead of creating a
pending referral. -/
inductive ReferralJoinReply where
  | invalidLink
  | selfReferral
  | alreadyMember
  | inviteSent

/-- `TelegramReferralBot._handle_referral_join(update, referral_code)`:
decode the code (invalid → error reply, nothing stored); read
`referral_data['referrer_id']` and `['channel_id']`; reject a self-referral
(`referrer_id == user_id`) before anything is stored; then check membership
via the Telegram API (`isMember`; an API exception is caught and treated as
not-a-member) and finally store the pending referral.  A payload whose two
ids are not both ints would flow into Telegram API calls outside this model;
that case returns `none` (and is unreachable in the theorems below). -/
def handle_referral_join (pending : PendingStore) (user_id : Int) (referral_code : String)
    (isMember : Bool) (now : Nat) : Option (ReferralJoinReply × PendingStore) :=
  match decode_referral_code referral_code with
  | none => some (.invalidLink, pending)
  | some rd =>
    match rd with
    | .obj kvs =>
      match objGet kvs "referrer_id", objGet kvs "channel_id" with
      | some rv, some cv =>
        if pyEqInt rv user_id then some (.selfReferral, pending)
        else
          match rv, cv with
          | .int referrer_id, .int channel_id =>
            if isMember then some (.alreadyMember, pending)
            else some (.inviteSent, add_pending_referral pending user_id channel_id referrer_id now)
          | _, _ => none
      | _, _ => none
    | _ => none

/-! ## `supabase_manager.py` -/

/-- `SupabaseManager.get_referral_data(referral_code)`: the relational
backend's code lookup.  The body is a block of commentary that falls
through to `return None`, with `return None` again in the `except` arm —
the code path returns `None` for every input. -/
def supabase_get_referral_data (referral_code : String) : Option PyJson := none

/-! ## Store lemmas -/

theorem lookupKey_setKey_self {α : Type} (m : List (String × α)) (k : String) (v : α) :
    lookupKey (setKey m k v) k = some v := by
  induction m with
  | nil => simp [setKey, lookupKey]
  | cons kv rest ih =>
    by_cases h : kv.1 = k
    · simp [setKey, lookupKey, h]
    · simp [setKey, lookupKey, h, ih]

theorem mem_setKey {α : Type} {m : List (String × α)} {k : String} {v : α} :
    ∀ x ∈ setKey m k v, x = (k, v) ∨ x ∈ m := by
  induction m with
  | nil => simp [setKey]
  | cons kv rest ih =>
    intro x hx
    by_cases h : kv.1 = k
    · rw [setKey, if_pos h] at hx
      rcases List.mem_cons.mp hx with rfl | hx
      · exact Or.inl rfl
      · exact Or.inr (by simp [hx])
    · rw [setKey, if_neg h] at hx
      rcases List.mem_cons.mp hx with rfl | hx
      · exact Or.inr (by simp)
      · rcases ih x hx with h1 | h1
        · exact Or.inl h1
        · exact Or.inr (by simp [h1])

theorem lookupKey_mem {α : Type} {m : List (String × α)} {k : String} {v : α}
    (h : lookupKey m k = some v) : (k, v) ∈ m := by
  induction m with
  | nil => simp [lookupKey] at h
  | cons kv rest ih =>
    obtain ⟨k1, v1⟩ := kv
    rw [lookupKey] at h
    split at h
    · next heq =>
      cases h
      simp only at heq
      subst heq
      exact List.mem_cons_self _ _
    · exact List.mem_cons_of_mem _ (ih h)

/-! ## Claims -/

/-- **C1.**  For every user state whose `(user, channel)` record has
`successful_referrals = s` and `rewards_claimed = c`, `claim_reward` fails
with the no-rewards message when `floor(s / TARGET) - c <= 0` (leaving the
store untouched), and otherwise increments `rewards_claimed` by exactly one
and returns the new total `c + 1`. -/
theorem claim_reward_spec (users : UserStore) (uid cid : Int) (now : Nat)
    (ud : UserData) (chd : ChannelData)
    (hu : get_user_data users uid = some ud)
    (hc : lookupKey ud.channels (pyIntStr cid) = some chd) :
    (Int.fdiv chd.successful_referrals REFERRAL_TARGET - chd.rewards_claimed ≤ 0 →
      claim_reward users uid cid now = (.failure noRewardsMessage, users)) ∧
    (0 < Int.fdiv chd.successful_referrals REFERRAL_TARGET - chd.rewards_claimed →
      (claim_reward users uid cid now).1 =
        .success "Reward claimed successfully!" (chd.rewards_claimed + 1) ∧
      get_user_data (claim_reward users uid cid now).2 uid =
        some { channels :=
                 setKey ud.channels (pyIntStr cid)
                   { chd with rewards_claimed := chd.rewards_claimed + 1 },
               last_updated := some now } ∧
      lookupKey
          (setKey ud.channels (pyIntStr cid)
            { chd with rewards_claimed := chd.rewards_claimed + 1 })
          (pyIntStr cid) =
        some { chd with rewards_claimed := chd.rewards_claimed + 1 }) := by
  constructor
  · intro hle
    simp only [claim_reward, hu, hc]
    rw [if_pos hle]
  · intro hgt
    have hne : ¬(Int.fdiv chd.successful_referrals REFERRAL_TARGET - chd.rewards_claimed ≤ 0) := by
      omega
    refine ⟨?_, ?_, lookupKey_setKey_self _ _ _⟩
    · simp only [claim_reward, hu, hc]
      rw [if_neg hne]
    · simp only [claim_reward, hu, hc]
      rw [if_neg hne]
      simp only [save_user_data, get_user_data]
      exact lookupKey_setKey_self _ _ _

/-- The reward-scenario channel record of the spec: `successful_referrals =
25`, `rewards_claimed = 1`. -/
def rewardScenarioChannel : ChannelData :=
  { successful_referrals := 25, rewards_claimed := 1, referred_users := [],
    referral_history := [] }

def rewardScenarioUser : UserData :=
  { channels := [("10", rewardScenarioChannel)], last_updated := none }

def rewardScenarioStore : UserStore := [("1", rewardScenarioUser)]

def rewardScenarioChannel2 : ChannelData :=
  { rewardScenarioChannel with rewards_claimed := 2 }

def rewardScenarioUser2 : UserData :=
  { channels := [("10", rewardScenarioChannel2)], last_updated := some 5 }

/-- Witness for C1, running the spec's `TARGET = 10, s = 25, c = 1`
scenario: the first claim succeeds with total 2, an immediately following
claim on the resulting store fails. -/
theorem claim_reward_spec_witness :
    (claim_reward rewardScenarioStore 1 10 5).1 =
      .success "Reward claimed successfully!" 2 ∧
    claim_reward (claim_reward rewardScenarioStore 1 10 5).2 1 10 6 =
      (.failure noRewardsMessage, (claim_reward rewardScenarioStore 1 10 5).2) := by
  have step1 := claim_reward_spec rewardScenarioStore 1 10 5
    rewardScenarioUser rewardScenarioChannel rfl rfl
  have h1 := (step1.2 (by decide)).1
  refine ⟨h1, ?_⟩
  have step2 := claim_reward_spec (claim_reward rewardScenarioStore 1 10 5).2 1 10 6
    rewardScenarioUser2 rewardScenarioChannel2 (by rfl) (by rfl)
  have h2 := step2.1 (by decide)
  calc claim_reward (claim_reward rewardScenarioStore 1 10 5).2 1 10 6
      = (.failure noRewardsMessage, (claim_reward rewardScenarioStore 1 10 5).2) := h2

/-- The channel record after crediting one more join of `uid` at time
`now`, exactly as `process_successful_referral` writes it. -/
def creditedChannel (chd : ChannelData) (uid : Int) (now : Nat) : ChannelData :=
  { chd with
    successful_referrals := chd.successful_referrals + 1,
    referred_users := chd.referred_users ++ [uid],
    referral_history := chd.referral_history ++
      [{ user_id := uid, timestamp := now, action := "joined" }] }

/-- A store in which referrer 5 already has user 7 credited once in
channel 10. -/
def doubleJoinChannel : ChannelData :=
  { successful_referrals := 1, rewards_claimed := 0, referred_users := [7],
    referral_history := [] }

def doubleJoinUser : UserData :=
  { channels := [("10", doubleJoinChannel)], last_updated := none }

def doubleJoinStore : UserStore := [("5", doubleJoinUser)]

def doubleJoinChannel2 : ChannelData :=
  { successful_referrals := 2, rewards_claimed := 0, referred_users := [7, 7],
    referral_history := [{ user_id := 7, timestamp := 50, action := "joined" }] }

def doubleJoinUser2 : UserData :=
  { channels := [("10", doubleJoinChannel2)], last_updated := some 50 }

/-- **C2 counterexample.**  User 7 is already in referrer 5's
`referred_users` for channel 10 with `successful_referrals = 1`, yet
processing another join of user 7 for the same referrer and channel
increments `successful_referrals` to 2 and records the user twice: the
engine does not deduplicate. -/
theorem process_successful_referral_cex :
    get_user_data doubleJoinStore 5 = some doubleJoinUser ∧
    lookupKey doubleJoinUser.channels "10" = some doubleJoinChannel ∧
    7 ∈ doubleJoinChannel.referred_users ∧
    doubleJoinChannel.successful_referrals = 1 ∧
    (process_successful_referral doubleJoinStore 5 10 7 50).1 = 2 ∧
    get_user_data (process_successful_referral doubleJoinStore 5 10 7 50).2 5 =
      some doubleJoinUser2 :=
  ⟨rfl, rfl, by decide, rfl, rfl, rfl⟩

/-- **C2 (amended).**  `process_successful_referral` performs no
deduplication: in every state where `referred_user_id` is already present
in the referrer's `referred_users` list for the channel, processing another
join of that same user for that same referrer and channel increments
`successful_referrals` a second time (by exactly one) and appends the user
to the list again; uniqueness of credit rests on pending records being
single-use and on leave events removing the user first. -/
theorem process_successful_referral_amended (users : UserStore)
    (rid cid uid : Int) (now : Nat) (ud : UserData) (chd : ChannelData)
    (hu : get_user_data users rid = some ud)
    (hc : lookupKey ud.channels (pyIntStr cid) = some chd)
    (hmem : uid ∈ chd.referred_users) :
    (process_successful_referral users rid cid uid now).1 = chd.successful_referrals + 1 ∧
    get_user_data (process_successful_referral users rid cid uid now).2 rid =
      some { channels := setKey ud.channels (pyIntStr cid) (creditedChannel chd uid now),
             last_updated := some now } := by
  have hu' : lookupKey users (pyIntStr rid) = some ud := hu
  constructor
  · simp only [process_successful_referral, get_user_data, hu', Option.getD_some, hc]
  · simp only [process_successful_referral, get_user_data, hu', Option.getD_some, hc,
      save_user_data]
    rw [lookupKey_setKey_self]
    rfl

/-- Witness for the amended C2 at the concrete double-join store. -/
theorem process_successful_referral_amended_witness :
    (process_successful_referral doubleJoinStore 5 10 7 50).1 =
      doubleJoinChannel.successful_referrals + 1 ∧
    get_user_data (process_successful_referral doubleJoinStore 5 10 7 50).2 5 =
      some { channels := setKey doubleJoinUser.channels (pyIntStr 10)
               (creditedChannel doubleJoinChannel 7 50),
             last_updated := some 50 } :=
  process_successful_referral_amended doubleJoinStore 5 10 7 50
    doubleJoinUser doubleJoinChannel rfl rfl (by decide)

/-! ### C7: the `successful_referrals >= 0` invariant -/

/-- Every channel record of every user record has a non-negative
`successful_referrals` counter. -/
def StoreInv (users : UserStore) : Prop :=
  ∀ kv ∈ users, ∀ ckv ∈ kv.2.channels, 0 ≤ ckv.2.successful_referrals

theorem storeInv_save {users : UserStore} (hInv : StoreInv users) (uid : Int)
    (d : UserData) (now : Nat)
    (hd : ∀ ckv ∈ d.channels, 0 ≤ ckv.2.successful_referrals) :
    StoreInv (save_user_data users uid d now) := by
  intro kv hkv
  rcases mem_setKey kv hkv with rfl | hkv
  · exact hd
  · exact hInv kv hkv

theorem storeInv_channels {users : UserStore} (hInv : StoreInv users) {uid : Int}
    {ud : UserData} (h : get_user_data users uid = some ud) :
    ∀ ckv ∈ ud.channels, 0 ≤ ckv.2.successful_referrals :=
  hInv (pyIntStr uid, ud) (lookupKey_mem h)

theorem credit_preserves_inv {users : UserStore} (hInv : StoreInv users)
    (r c u : Int) (now : Nat) :
    StoreInv (process_successful_referral users r c u now).2 := by
  rw [process_successful_referral]
  apply storeInv_save hInv
  intro ckv hckv
  rcases mem_setKey ckv hckv with rfl | hckv
  · simp only
    have h0 : 0 ≤ ((lookupKey ((get_user_data users r).getD
        { channels := [], last_updated := none }).channels
          (pyIntStr c)).getD ChannelData.init).successful_referrals := by
      cases heq : get_user_data users r with
      | none => simp [heq, lookupKey, ChannelData.init]
      | some ud =>
        cases heq2 : lookupKey ud.channels (pyIntStr c) with
        | none => simp [heq, heq2, ChannelData.init]
        | some chd =>
          have hle := storeInv_channels hInv heq (pyIntStr c, chd) (lookupKey_mem heq2)
          simpa [heq, heq2] using hle
    omega
  · cases heq : get_user_data users r with
    | none =>
      rw [heq] at hckv
      simp at hckv
    | some ud =>
      rw [heq] at hckv
      exact storeInv_channels hInv heq ckv hckv

theorem leave_preserves_inv {users : UserStore} (hInv : StoreInv users)
    (r c u : Int) (now : Nat) :
    StoreInv (process_referral_leave users r c u now) := by
  cases heq : get_user_data users r with
  | none => simpa only [process_referral_leave, heq] using hInv
  | some rd =>
    cases heq2 : lookupKey rd.channels (pyIntStr c) with
    | none => simpa only [process_referral_leave, heq, heq2] using hInv
    | some chd =>
      simp only [process_referral_leave, heq, heq2]
      split
      · apply storeInv_save hInv
        intro ckv hckv
        rcases mem_setKey ckv hckv with rfl | hckv
        · have h0 := storeInv_channels hInv heq (pyIntStr c, chd) (lookupKey_mem heq2)
          simp only at h0 ⊢
          split <;> omega
        · exact storeInv_channels hInv heq ckv hckv
      · exact hInv

theorem claim_preserves_inv {users : UserStore} (hInv : StoreInv users)
    (u c : Int) (now : Nat) :
    StoreInv (claim_reward users u c now).2 := by
  cases heq : get_user_data users u with
  | none => simpa only [claim_reward, heq] using hInv
  | some ud =>
    cases heq2 : lookupKey ud.channels (pyIntStr c) with
    | none => simpa only [claim_reward, heq, heq2] using hInv
    | some chd =>
      simp only [claim_reward, heq, heq2]
      split
      · exact hInv
      · apply storeInv_save hInv
        intro ckv hckv
        rcases mem_setKey ckv hckv with rfl | hckv
        · exact storeInv_channels hInv heq (pyIntStr c, chd) (lookupKey_mem heq2)
        · exact storeInv_channels hInv heq ckv hckv

theorem leave_foldl_inv (ops : List (Int × Int × Int × Nat)) :
    ∀ users : UserStore, StoreInv users →
      StoreInv (ops.foldl
        (fun st p => process_referral_leave st p.1 p.2.1 p.2.2.1 p.2.2.2) users) := by
  induction ops with
  | nil => exact fun _ h => h
  | cons p rest ih =>
    intro users hInv
    exact ih _ (leave_preserves_inv hInv p.1 p.2.1 p.2.2.1 p.2.2.2)

/-- **C7.**  `successful_referrals >= 0` is an invariant of every
`(user, channel)` record, preserved by crediting, leave processing and
reward claiming; in particular any sequence of `process_referral_leave`
calls — including repeated leaves for an already-decremented user — never
drives a counter below zero. -/
theorem successful_referrals_invariant (users : UserStore) (hInv : StoreInv users) :
    (∀ r c u now, StoreInv (process_successful_referral users r c u now).2) ∧
    (∀ r c u now, StoreInv (process_referral_leave users r c u now)) ∧
    (∀ u c now, StoreInv (claim_reward users u c now).2) ∧
    (∀ ops : List (Int × Int × Int × Nat),
      StoreInv (ops.foldl
        (fun st p => process_referral_leave st p.1 p.2.1 p.2.2.1 p.2.2.2) users)) :=
  ⟨fun r c u now => credit_preserves_inv hInv r c u now,
   fun r c u now => leave_preserves_inv hInv r c u now,
   fun u c now => claim_preserves_inv hInv u c now,
   fun ops => leave_foldl_inv ops users hInv⟩

/-- A store with one decrementable credit, for the C7 and C8 witnesses. -/
def invScenarioChannel : ChannelData :=
  { successful_referrals := 1, rewards_claimed := 0, referred_users := [4],
    referral_history := [] }

def invScenarioUser : UserData :=
  { channels := [("10", invScenarioChannel)], last_updated := none }

def invScenarioStore : UserStore := [("3", invScenarioUser)]

def leaveOps : List (Int × Int × Int × Nat) :=
  [(3, 10, 4, 60), (3, 10, 4, 61), (3, 10, 9, 62)]

/-- Witness for C7: after a leave, a repeated leave for the same user and a
leave for a never-credited user, every counter is still non-negative. -/
theorem successful_referrals_invariant_witness :
    StoreInv invScenarioStore ∧
    StoreInv (leaveOps.foldl
      (fun st p => process_referral_leave st p.1 p.2.1 p.2.2.1 p.2.2.2) invScenarioStore) :=
  ⟨by unfold StoreInv; decide,
   (successful_referrals_invariant invScenarioStore (by unfold StoreInv; decide)).2.2.2 leaveOps⟩

/-- **C8.**  When `left_user_id` is not in the referrer's `referred_users`
list for the channel — the user was never credited to that referrer, the
leave was already processed, or the user/channel record is absent —
`process_referral_leave` is a no-op: the store it returns is the input
store, so counters, lists, history and `last_updated` are all unchanged and
no record is written back. -/
theorem process_referral_leave_noop (users : UserStore) (rid cid uid : Int) (now : Nat)
    (h : ∀ ud chd, get_user_data users rid = some ud →
      lookupKey ud.channels (pyIntStr cid) = some chd → uid ∉ chd.referred_users) :
    process_referral_leave users rid cid uid now = users := by
  cases heq : get_user_data users rid with
  | none => simp only [process_referral_leave, heq]
  | some rd =>
    cases heq2 : lookupKey rd.channels (pyIntStr cid) with
    | none => simp only [process_referral_leave, heq, heq2]
    | some chd =>
      simp only [process_referral_leave, heq, heq2]
      rw [if_neg (h rd chd heq heq2)]

/-- Witness for C8: a leave for user 7, who was never credited to
referrer 3 (only user 4 was), leaves the store untouched. -/
theorem process_referral_leave_noop_witness :
    process_referral_leave invScenarioStore 3 10 7 60 = invScenarioStore :=
  process_referral_leave_noop invScenarioStore 3 10 7 60 (by
    intro ud chd h1 h2
    injection (show some invScenarioUser = some ud from h1) with hud
    subst hud
    injection (show some invScenarioChannel = some chd from h2) with hcd
    subst hcd
    decide)

/-- **C9.**  The relational-backend persistence adapter's
get-referral-data-by-code is a stub: it returns the not-found result for
every referral code, so deep-link code-based lookup never resolves a
referrer in that configuration. -/
theorem supabase_get_referral_data_stub (referral_code : String) :
    supabase_get_referral_data referral_code = none := rfl

/-- **C3.**  For every join event with both a pending referral for
`(user_id, chat_id)` and an invite-link mapping for the observed link, the
pending record's referrer is the one resolved and credited — the mapping is
never consulted — and the pending record is deleted (it is single-use).
The source guards the credit with `if referrer_id:`, so a (forgeable)
pending record with referrer id 0 deletes the record but credits no one. -/
theorem pending_referral_precedence (users : UserStore) (pending : PendingStore)
    (links : InviteStore) (chat_id user_id : Int) (link : String) (now : Nat)
    (pr : PendingRecord) (im : InviteMapping)
    (hp : get_pending_referral pending user_id chat_id = some pr)
    (hl : lookupKey links link = some im) :
    (handle_user_join_attribution users pending links chat_id user_id (some link) now).1 =
      some pr.referrer_id ∧
    (handle_user_join_attribution users pending links chat_id user_id (some link) now).2.2 =
      remove_pending_referral pending user_id chat_id ∧
    (pr.referrer_id ≠ 0 →
      (handle_user_join_attribution users pending links chat_id user_id (some link) now).2.1 =
        (process_successful_referral users pr.referrer_id chat_id user_id now).2) ∧
    (pr.referrer_id = 0 →
      (handle_user_join_attribution users pending links chat_id user_id (some link) now).2.1 =
        users) := by
  by_cases h0 : pr.referrer_id = 0
  · simp [handle_user_join_attribution, hp, h0]
  · simp [handle_user_join_attribution, hp, h0]

/-- A pending referral of referrer 42 for joiner 7 in channel 10, together
with an invite-link mapping that names a different referrer (99). -/
def precedencePending : PendingStore :=
  [("7_10", { user_id := 7, channel_id := 10, referrer_id := 42, timestamp := 5 })]

def precedenceMapping : InviteMapping :=
  { user_id := 99, chat_id := 10, referral_code := "X", created_at := 1 }

def precedenceLinks : InviteStore := [("https://t.me/+abcdef", precedenceMapping)]

/-- Witness for C3 at a concrete state: referrer 42 from the pending record
wins over referrer 99 from the link mapping, and the pending record is
removed. -/
theorem pending_referral_precedence_witness :
    (handle_user_join_attribution [] precedencePending precedenceLinks 10 7
        (some "https://t.me/+abcdef") 60).1 = some 42 ∧
    (handle_user_join_attribution [] precedencePending precedenceLinks 10 7
        (some "https://t.me/+abcdef") 60).2.2 =
      remove_pending_referral precedencePending 7 10 ∧
    (handle_user_join_attribution [] precedencePending precedenceLinks 10 7
        (some "https://t.me/+abcdef") 60).2.1 =
      (process_successful_referral [] 42 10 7 60).2 := by
  have h := pending_referral_precedence [] precedencePending precedenceLinks 10 7
    "https://t.me/+abcdef" 60
    ({ user_id := 7, channel_id := 10, referrer_id := 42, timestamp := 5 })
    precedenceMapping rfl rfl
  exact ⟨h.1, h.2.1, h.2.2.1 (by decide)⟩

/-- A successful `decode_referral_code` has passed all three `in` checks. -/
theorem decode_some_contains {s : String} {v : PyJson}
    (h : decode_referral_code s = some v) :
    pyContains v "referrer_id" = some true ∧ pyContains v "channel_id" = some true ∧
    pyContains v "timestamp" = some true := by
  unfold decode_referral_code at h
  cases hp : decodePayload s with
  | none => simp [hp] at h
  | some w =>
    simp only [hp] at h
    cases h1 : pyContains w "referrer_id" with
    | none => simp [h1] at h
    | some b1 =>
      simp only [h1] at h
      cases b1 with
      | false => simp at h
      | true =>
        simp only [if_true] at h
        cases h2 : pyContains w "channel_id" with
        | none => simp [h2] at h
        | some b2 =>
          simp only [h2] at h
          cases b2 with
          | false => simp at h
          | true =>
            simp only [if_true] at h
            cases h3 : pyContains w "timestamp" with
            | none => simp [h3] at h
            | some b3 =>
              simp only [h3] at h
              cases b3 with
              | false => simp at h
              | true =>
                simp only [if_true, Option.some.injEq] at h
                subst h
                exact ⟨h1, h2, h3⟩

/-- **C6.**  For every referral code whose decoded referrer id equals the id
of the user starting the referral flow, `_handle_referral_join` rejects the
flow with the self-referral error before any pending referral is created:
the pending store is returned unchanged, so no credit can later be
attributed from this flow. -/
theorem self_referral_guard (pending : PendingStore) (user_id : Int) (code : String)
    (isMember : Bool) (now : Nat) (kvs : List (String × PyJson))
    (hdec : decode_referral_code code = some (.obj kvs))
    (href : objGet kvs "referrer_id" = some (.int user_id)) :
    handle_referral_join pending user_id code isMember now =
      some (.selfReferral, pending) := by
  have hcc := (decode_some_contains hdec).2.1
  have hcv : ∃ cv, objGet kvs "channel_id" = some cv := by
    simp only [pyContains] at hcc
    cases hcv' : objGet kvs "channel_id" with
    | none => rw [hcv'] at hcc; simp at hcc
    | some cv => exact ⟨cv, rfl⟩
  obtain ⟨cv, hcv⟩ := hcv
  simp only [handle_referral_join, hdec, href, hcv]
  simp [pyEqInt]

/-- Witness for C6: user 3 starting the flow with a code generated for
referrer 3 is rejected and the (empty) pending store stays empty. -/
theorem self_referral_guard_witness :
    handle_referral_join [] 3 (generate_referral_code 3 5 777 "00aa11bb") false 99 =
      some (.selfReferral, []) :=
  self_referral_guard [] 3 (generate_referral_code 3 5 777 "00aa11bb") false 99
    [("referrer_id", .int 3), ("channel_id", .int 5), ("timestamp", .int 777),
      ("hash", .str "00aa11bb")]
    rfl rfl

/-! ## Parsing `json.dumps` output back: string bodies -/

/-- A character that the JSON string scanner passes through unchanged and
that `json.dumps` writes unescaped: not a quote, not a backslash, and not a
control character (for the dumps direction also at most `0x7E`). -/
def plainStrChar (c : Char) : Prop := c ≠ '"' ∧ c ≠ '\\' ∧ 0x20 ≤ c.toNat

theorem stringMk_toList (s : String) : (⟨s.toList⟩ : String) = s := by
  cases s
  rfl

theorem parseJStringLoop_plain (s : List Char)
    (h : ∀ c ∈ s, plainStrChar c) :
    ∀ (f : Nat) (acc rest : List Char), s.length < f →
      parseJStringLoop f acc (s ++ '"' :: rest) = some (⟨acc.reverse ++ s⟩, rest) := by
  induction s with
  | nil =>
    intro f acc rest hf
    cases f with
    | zero => omega
    | succ f => simp [parseJStringLoop]
  | cons c tl ih =>
    intro f acc rest hf
    cases f with
    | zero => simp at hf
    | succ f =>
      obtain ⟨hq, hbs, hctl⟩ := h c (by simp)
      have hlt : ¬(c.toNat < 0x20) := by omega
      rw [List.cons_append, parseJStringLoop, if_neg hq, if_neg hbs, if_neg hlt,
        ih (fun x hx => h x (by simp [hx])) f (c :: acc) rest (by simp at hf; omega)]
      simp

/-- The form `parseJString` is invoked with in the object/value parsers:
body characters, closing quote, remainder. -/
theorem parseJString_plain (s : List Char) (h : ∀ c ∈ s, plainStrChar c) (rest : List Char) :
    parseJString (s ++ '"' :: rest) = some (⟨s⟩, rest) := by
  rw [parseJString, parseJStringLoop_plain s h _ [] rest (by simp)]
  simp

/-! ## Parsing `json.dumps` output back: numbers -/

/-- A remainder that cannot extend a number token: empty, or headed by a
character that is neither a digit nor `.`/`e`/`E`.  The `, ` and `}` that
follow every number in the dumps output qualify. -/
def numBoundary : List Char → Prop
  | [] => True
  | c :: _ => isDigitCh c = false ∧ c ≠ '.' ∧ c ≠ 'e' ∧ c ≠ 'E'

theorem digitRun_stop_of_boundary {rest : List Char} (hb : numBoundary rest) :
    digitRun rest = ([], rest) := by
  cases rest with
  | nil => rfl
  | cons c t => exact digitRun_stop (Or.inr ⟨c, t, rfl, hb.1⟩)

theorem parseIntPart_natStr (n : Nat) (rest : List Char)
    (hrest : digitRun rest = ([], rest)) :
    parseIntPart (natStr n ++ rest) = some (n, rest) := by
  by_cases h0 : n = 0
  · subst h0
    rw [natStr_zero]
    simp [parseIntPart]
  · obtain ⟨c0, t0, hct, hd, hz⟩ := natStr_head_ne_zero h0
    rw [hct, List.cons_append, parseIntPart, if_neg hz, if_pos hd]
    have hdr : digitRun (t0 ++ rest) = (t0, rest) :=
      digitRun_append t0 (fun x hx => natStr_digits n x (by rw [hct]; simp [hx])) rest hrest
    simp only [hdr]
    rw [show (c0 :: t0 : List Char) = natStr n from hct.symm, digitsVal_natStr]

theorem numSign_not_minus {c : Char} (h : c ≠ '-') (r : List Char) :
    numSign (c :: r) = (false, c :: r) := by
  rw [numSign.eq_def]
  split
  · next heq =>
    injection heq with h1 _
    exact absurd h1 h
  · rfl

theorem numFrac_boundary {rest : List Char} (hb : numBoundary rest) :
    numFrac rest = ([], rest) := by
  rw [numFrac.eq_def]
  split
  · next r => exact absurd rfl hb.2.1
  · rfl

theorem numExp_boundary {rest : List Char} (hb : numBoundary rest) :
    numExp rest = (false, false, [], rest) := by
  rw [numExp.eq_def]
  split
  · next e r =>
    rw [if_neg (by
      rintro (rfl | rfl)
      · exact hb.2.2.1 rfl
      · exact hb.2.2.2 rfl)]
  · rfl

theorem parseNumber_intStr (i : Int) (rest : List Char) (hb : numBoundary rest) :
    parseNumber (intStr i ++ rest) = some (.int i, rest) := by
  have hdr : digitRun rest = ([], rest) := digitRun_stop_of_boundary hb
  by_cases hneg : i < 0
  · rw [parseNumber, intStr, if_pos hneg, List.cons_append]
    rw [show numSign ('-' :: (natStr i.natAbs ++ rest)) = (true, natStr i.natAbs ++ rest)
      from rfl]
    simp only [parseIntPart_natStr i.natAbs rest hdr, numFrac_boundary hb,
      numExp_boundary hb]
    have hi : -((i.natAbs : Nat) : Int) = i := by omega
    have hcond : (([] : List Char).isEmpty = true) ∧ ¬(false = true) := by simp
    rw [if_pos hcond, if_pos (by trivial), hi]
  · rw [parseNumber, intStr, if_neg hneg]
    have hsign : numSign (natStr i.natAbs ++ rest) = (false, natStr i.natAbs ++ rest) := by
      by_cases h0 : i.natAbs = 0
      · rw [h0, natStr_zero]
        exact numSign_not_minus (by decide) rest
      · obtain ⟨c0, t0, hct, hd, _⟩ := natStr_head_ne_zero h0
        rw [hct, List.cons_append]
        exact numSign_not_minus (by intro hc; rw [hc] at hd; exact absurd hd (by decide)) _
    rw [hsign]
    simp only [parseIntPart_natStr i.natAbs rest hdr, numFrac_boundary hb,
      numExp_boundary hb]
    have hi : ((i.natAbs : Nat) : Int) = i := by omega
    have hcond : (([] : List Char).isEmpty = true) ∧ ¬(false = true) := by simp
    rw [if_pos hcond, if_neg (show ¬(false = true) from by simp), hi]

theorem intStr_head (i : Int) :
    ∃ c t, intStr i = c :: t ∧ (c = '-' ∨ isDigitCh c = true) := by
  rw [intStr]
  split
  · exact ⟨'-', natStr i.natAbs, rfl, Or.inl rfl⟩
  · by_cases h0 : i.natAbs = 0
    · rw [h0, natStr_zero]
      exact ⟨'0', [], rfl, Or.inr (by decide)⟩
    · obtain ⟨c0, t0, hct, hd, _⟩ := natStr_head_ne_zero h0
      exact ⟨c0, t0, hct, Or.inr hd⟩

theorem numStart_facts {c : Char} (h : c = '-' ∨ isDigitCh c = true) :
    c ≠ '"' ∧ c ≠ '{' ∧ c ≠ '[' ∧ c ≠ 'n' ∧ c ≠ 't' ∧ c ≠ 'f' ∧
    ¬(c = ' ' ∨ c = '\t' ∨ c = '\n' ∨ c = '\r') := by
  rcases h with rfl | h
  · refine ⟨by decide, by decide, by decide, by decide, by decide, by decide, by decide⟩
  · refine ⟨?_, ?_, ?_, ?_, ?_, ?_, ?_⟩
    · intro hx; rw [hx] at h; exact absurd h (by decide)
    · intro hx; rw [hx] at h; exact absurd h (by decide)
    · intro hx; rw [hx] at h; exact absurd h (by decide)
    · intro hx; rw [hx] at h; exact absurd h (by decide)
    · intro hx; rw [hx] at h; exact absurd h (by decide)
    · intro hx; rw [hx] at h; exact absurd h (by decide)
    · rintro (hx | hx | hx | hx) <;> (rw [hx] at h; exact absurd h (by decide))

/-- `skipWs` passes a non-whitespace head through unchanged. -/
theorem skipWs_cons_of {c : Char} (h : ¬(c = ' ' ∨ c = '\t' ∨ c = '\n' ∨ c = '\r'))
    (t : List Char) : skipWs (c :: t) = c :: t := by
  rw [skipWs, if_neg h]

/-- A number-start character makes `parseValue` fall through its literal
branches to `parseNumber`: the head is `-` or a digit, hence one of eleven
concrete characters, and each case is definitional. -/
theorem parseValue_dispatch_num (f : Nat) (c0 : Char) (X : List Char)
    (h : c0 = '-' ∨ isDigitCh c0 = true) :
    parseValue (f + 1) (c0 :: X) =
      (match parseNumber (c0 :: X) with
       | some v => some v
       | none => parseConstant (c0 :: X)) := by
  rcases h with rfl | h
  · rfl
  · have hsub : c0 = Char.ofNat c0.toNat := (Char.ofNat_toNat c0).symm
    have hrange : 48 ≤ c0.toNat ∧ c0.toNat ≤ 57 := by
      simpa [isDigitCh] using h
    have hden : c0.toNat = 48 ∨ c0.toNat = 49 ∨ c0.toNat = 50 ∨ c0.toNat = 51 ∨
        c0.toNat = 52 ∨ c0.toNat = 53 ∨ c0.toNat = 54 ∨ c0.toNat = 55 ∨
        c0.toNat = 56 ∨ c0.toNat = 57 := by omega
    have hc : c0 = '0' ∨ c0 = '1' ∨ c0 = '2' ∨ c0 = '3' ∨ c0 = '4' ∨ c0 = '5' ∨
        c0 = '6' ∨ c0 = '7' ∨ c0 = '8' ∨ c0 = '9' := by
      rcases hden with h'|h'|h'|h'|h'|h'|h'|h'|h'|h' <;> rw [hsub, h'] <;> decide
    rcases hc with rfl|rfl|rfl|rfl|rfl|rfl|rfl|rfl|rfl|rfl <;> rfl

theorem parseValue_int (f : Nat) (i : Int) (rest : List Char) (hb : numBoundary rest) :
    parseValue (f + 1) (intStr i ++ rest) = some (.int i, rest) := by
  obtain ⟨c0, t0, hct, hcls⟩ := intStr_head i
  rw [hct, List.cons_append, parseValue_dispatch_num f c0 _ hcls,
    show (c0 :: (t0 ++ rest) : List Char) = intStr i ++ rest from by rw [hct]; simp,
    parseNumber_intStr i rest hb]

theorem parseValue_str (f : Nat) (s : String) (h : ∀ c ∈ s.toList, plainStrChar c)
    (rest : List Char) :
    parseValue (f + 1) ('"' :: (s.toList ++ '"' :: rest)) = some (.str s, rest) := by
  have hd : parseValue (f + 1) ('"' :: (s.toList ++ '"' :: rest)) =
      (match parseJString (s.toList ++ '"' :: rest) with
       | some (p, r2) => some (.str p, r2)
       | none => none) := rfl
  rw [hd, parseJString_plain s.toList h rest, stringMk_toList]

theorem numBoundary_comma (x : List Char) : numBoundary (',' :: x) :=
  ⟨by decide, by decide, by decide, by decide⟩

theorem numBoundary_brace (x : List Char) : numBoundary ('}' :: x) :=
  ⟨by decide, by decide, by decide, by decide⟩

/-- One `"key": <int>, "` step of the member loop on dumps output. -/
theorem membersLoop_int_step (f : Nat) (key : String)
    (hkey : ∀ c ∈ key.toList, plainStrChar c) (i : Int) (next : List Char) :
    parseMembersLoop (f + 2)
        (key.toList ++ '"' :: ':' :: ' ' :: (intStr i ++ ',' :: ' ' :: '"' :: next)) =
      (parseMembersLoop (f + 1) next).map (fun pr => ((key, PyJson.int i) :: pr.1, pr.2)) := by
  rw [show f + 2 = (f + 1) + 1 from rfl, parseMembersLoop, parseJString_plain key.toList hkey]
  simp only [stringMk_toList]
  simp only [show skipWs (':' :: ' ' :: (intStr i ++ ',' :: ' ' :: '"' :: next)) =
    ':' :: ' ' :: (intStr i ++ ',' :: ' ' :: '"' :: next) from rfl]
  simp only [show skipWs (' ' :: (intStr i ++ ',' :: ' ' :: '"' :: next)) =
    skipWs (intStr i ++ ',' :: ' ' :: '"' :: next) from rfl]
  have hskip : skipWs (intStr i ++ ',' :: ' ' :: '"' :: next) =
      intStr i ++ ',' :: ' ' :: '"' :: next := by
    obtain ⟨c0, t0, hct, hcls⟩ := intStr_head i
    rw [hct, List.cons_append]
    exact skipWs_cons_of (numStart_facts hcls).2.2.2.2.2.2 _
  rw [hskip, parseValue_int f i _ (numBoundary_comma _)]
  simp only [show skipWs (',' :: ' ' :: '"' :: next) = ',' :: ' ' :: '"' :: next from rfl]
  simp only [show skipWs (' ' :: '"' :: next) = '"' :: next from rfl]
  cases hres : parseMembersLoop (f + 1) next with
  | none => rfl
  | some pr => rfl

/-- The terminal `"key": "value"}` step of the member loop. -/
theorem membersLoop_str_last (f : Nat) (key : String)
    (hkey : ∀ c ∈ key.toList, plainStrChar c) (sval : String)
    (hs : ∀ c ∈ sval.toList, plainStrChar c) (tail : List Char) :
    parseMembersLoop (f + 2)
        (key.toList ++ '"' :: ':' :: ' ' :: ('"' :: (sval.toList ++ '"' :: '}' :: tail))) =
      some ([(key, PyJson.str sval)], tail) := by
  rw [show f + 2 = (f + 1) + 1 from rfl, parseMembersLoop,
    parseJString_plain key.toList hkey]
  simp only [stringMk_toList]
  simp only [show skipWs (':' :: ' ' :: ('"' :: (sval.toList ++ '"' :: '}' :: tail))) =
    ':' :: ' ' :: ('"' :: (sval.toList ++ '"' :: '}' :: tail)) from rfl]
  simp only [show skipWs (' ' :: ('"' :: (sval.toList ++ '"' :: '}' :: tail))) =
    '"' :: (sval.toList ++ '"' :: '}' :: tail) from rfl]
  rw [parseValue_str f sval hs ('}' :: tail)]
  simp only [show skipWs ('}' :: tail) = '}' :: tail from rfl]

/-- Lowercase hexadecimal digit, the alphabet of
`hashlib.md5(...).hexdigest()`. -/
def hexLowerCh (c : Char) : Bool := isDigitCh c || (97 ≤ c.toNat && c.toNat ≤ 102)

theorem hexLower_range {c : Char} (h : hexLowerCh c = true) :
    (48 ≤ c.toNat ∧ c.toNat ≤ 57) ∨ (97 ≤ c.toNat ∧ c.toNat ≤ 102) := by
  simp only [hexLowerCh, isDigitCh, Bool.or_eq_true, Bool.and_eq_true,
    decide_eq_true_eq] at h
  exact h

theorem hexLower_plain {c : Char} (h : hexLowerCh c = true) : plainStrChar c := by
  have hr := hexLower_range h
  refine ⟨?_, ?_, by omega⟩
  · intro hx; rw [hx] at h; exact absurd h (by decide)
  · intro hx; rw [hx] at h; exact absurd h (by decide)

/-- `json.dumps` leaves a lowercase-hex character unescaped. -/
theorem escapeChAscii_hexLower {c : Char} (h : hexLowerCh c = true) :
    escapeChAscii c = [c] := by
  have hr := hexLower_range h
  rw [escapeChAscii]
  rw [if_neg (by intro hx; rw [hx] at h; exact absurd h (by decide))]
  rw [if_neg (by intro hx; rw [hx] at h; exact absurd h (by decide))]
  rw [if_neg (by intro hx; rw [hx] at h; exact absurd h (by decide))]
  rw [if_neg (by intro hx; rw [hx] at h; exact absurd h (by decide))]
  rw [if_neg (by intro hx; rw [hx] at h; exact absurd h (by decide))]
  rw [if_neg (by omega), if_neg (by omega), if_neg (by omega)]

theorem flatMap_escape_hexLower (s : List Char) (h : ∀ c ∈ s, hexLowerCh c = true) :
    s.flatMap escapeChAscii = s := by
  induction s with
  | nil => rfl
  | cons c t ih =>
    rw [List.flatMap_cons, escapeChAscii_hexLower (h c (by simp)),
      ih (fun x hx => h x (by simp [hx]))]
    rfl

theorem intStr_ofNat (t : Nat) : intStr (t : Int) = natStr t := by
  rw [intStr, if_neg (by omega)]
  simp

/-- The dumps output in the exact shape the parser lemmas consume. -/
theorem dumpsReferral_shape (u c : Int) (t : Nat) (h : String)
    (hh : ∀ ch ∈ h.toList, hexLowerCh ch = true) :
    dumpsReferral u c t h = '{' :: '"' ::
      ("referrer_id".toList ++ '"' :: ':' :: ' ' :: (intStr u ++ ',' :: ' ' :: '"' ::
        ("channel_id".toList ++ '"' :: ':' :: ' ' :: (intStr c ++ ',' :: ' ' :: '"' ::
          ("timestamp".toList ++ '"' :: ':' :: ' ' :: (intStr (t : Int) ++ ',' :: ' ' :: '"' ::
            ("hash".toList ++ '"' :: ':' :: ' ' ::
              ('"' :: (h.toList ++ '"' :: '}' :: []))))))))) := by
  rw [dumpsReferral,
    show jstrLit "referrer_id" = '"' :: ("referrer_id".toList ++ ['"']) from rfl,
    show jstrLit "channel_id" = '"' :: ("channel_id".toList ++ ['"']) from rfl,
    show jstrLit "timestamp" = '"' :: ("timestamp".toList ++ ['"']) from rfl,
    show jstrLit "hash" = '"' :: ("hash".toList ++ ['"']) from rfl,
    show jstrLit h = '"' :: (h.toList.flatMap escapeChAscii ++ ['"']) from rfl,
    flatMap_escape_hexLower h.toList hh, ← intStr_ofNat t]
  simp only [List.cons_append, List.append_assoc, List.nil_append, List.append_nil,
    List.singleton_append]

theorem key_plain_referrer : ∀ ch ∈ "referrer_id".toList, plainStrChar ch := by
  simp only [plainStrChar]
  decide

theorem key_plain_channel : ∀ ch ∈ "channel_id".toList, plainStrChar ch := by
  simp only [plainStrChar]
  decide

theorem key_plain_timestamp : ∀ ch ∈ "timestamp".toList, plainStrChar ch := by
  simp only [plainStrChar]
  decide

theorem key_plain_hash : ∀ ch ∈ "hash".toList, plainStrChar ch := by
  simp only [plainStrChar]
  decide

theorem parseMembers_dumps (f : Nat) (u c : Int) (t : Nat) (h : String)
    (hh : ∀ ch ∈ h.toList, hexLowerCh ch = true) :
    parseMembersLoop (f + 5)
      ("referrer_id".toList ++ '"' :: ':' :: ' ' :: (intStr u ++ ',' :: ' ' :: '"' ::
        ("channel_id".toList ++ '"' :: ':' :: ' ' :: (intStr c ++ ',' :: ' ' :: '"' ::
          ("timestamp".toList ++ '"' :: ':' :: ' ' :: (intStr (t : Int) ++ ',' :: ' ' :: '"' ::
            ("hash".toList ++ '"' :: ':' :: ' ' ::
              ('"' :: (h.toList ++ '"' :: '}' :: []))))))))) =
      some ([("referrer_id", .int u), ("channel_id", .int c),
          ("timestamp", .int (t : Int)), ("hash", .str h)], []) := by
  rw [show f + 5 = (f + 3) + 2 from rfl,
    membersLoop_int_step (f + 3) "referrer_id" key_plain_referrer u _,
    show (f + 3) + 1 = (f + 2) + 2 from rfl,
    membersLoop_int_step (f + 2) "channel_id" key_plain_channel c _,
    show (f + 2) + 1 = (f + 1) + 2 from rfl,
    membersLoop_int_step (f + 1) "timestamp" key_plain_timestamp (t : Int) _,
    show (f + 1) + 1 = f + 2 from rfl,
    membersLoop_str_last f "hash" key_plain_hash h (fun ch hc => hexLower_plain (hh ch hc)) []]
  rfl

theorem parseValue_dumps (f : Nat) (u c : Int) (t : Nat) (h : String)
    (hh : ∀ ch ∈ h.toList, hexLowerCh ch = true) :
    parseValue (f + 6) (dumpsReferral u c t h) =
      some (.obj [("referrer_id", .int u), ("channel_id", .int c),
        ("timestamp", .int (t : Int)), ("hash", .str h)], []) := by
  rw [dumpsReferral_shape u c t h hh]
  have hd : ∀ Y : List Char, parseValue (f + 6) ('{' :: ('"' :: Y)) =
      (match parseMembersLoop (f + 5) Y with
       | some (kvs, r3) => some (.obj kvs, r3)
       | none => none) := fun Y => rfl
  rw [hd, parseMembers_dumps f u c t h hh]

theorem json_loads_dumps (u c : Int) (t : Nat) (h : String)
    (hh : ∀ ch ∈ h.toList, hexLowerCh ch = true) :
    json_loads (dumpsReferral u c t h) =
      some (.obj [("referrer_id", .int u), ("channel_id", .int c),
        ("timestamp", .int (t : Int)), ("hash", .str h)]) := by
  have hsk : skipWs (dumpsReferral u c t h) = dumpsReferral u c t h := by
    rw [dumpsReferral]
    exact skipWs_cons_of (by decide) _
  have hlen : 5 ≤ (dumpsReferral u c t h).length := by
    rw [dumpsReferral_shape u c t h hh]
    simp
  obtain ⟨g, hg⟩ : ∃ g, (dumpsReferral u c t h).length + 1 = g + 6 :=
    ⟨(dumpsReferral u c t h).length - 5, by omega⟩
  rw [json_loads, hsk, hg, parseValue_dumps g u c t h hh]
  rfl

/-! ## The codec round-trip -/

theorem fromUrl_toUrl {c : Char} (h : (charSext c).isSome) :
    fromUrlSafe (toUrlSafe c) = c := by
  by_cases h1 : c = '+'
  · subst h1; decide
  · by_cases h2 : c = '/'
    · subst h2; decide
    · rw [toUrlSafe, if_neg h1, if_neg h2, fromUrlSafe,
        if_neg (charSext_isSome_facts h).2.2.1, if_neg (charSext_isSome_facts h).2.2.2]

theorem toUrl_ne_pad {c : Char} (h : (charSext c).isSome) :
    (!(toUrlSafe c == '=')) = true := by
  by_cases h1 : c = '+'
  · subst h1; decide
  · by_cases h2 : c = '/'
    · subst h2; decide
    · rw [toUrlSafe, if_neg h1, if_neg h2]
      simp [(charSext_isSome_facts h).2.1]

/-- Undoing `generate_referral_code`'s URL-safe replacement and padding
strip recovers the exact `b64encode` output. -/
theorem code_restores_encode (bs : List Nat) (hb : ∀ b ∈ bs, b < 256) :
    rePad ((((b64EncodeBytes bs).map toUrlSafe).filter
        (fun c => !(c == '='))).map fromUrlSafe) =
      b64EncodeBytes bs := by
  have hsplit := b64Encode_eq_data_pad bs
  have halpha := b64DataPart_alphabet bs hb
  have hlp := b64DataPart_len_pad bs
  rw [hsplit, List.map_append, List.map_replicate,
    show toUrlSafe '=' = '=' from rfl, List.filter_append]
  have hfd : ((b64DataPart bs).map toUrlSafe).filter (fun c => !(c == '=')) =
      (b64DataPart bs).map toUrlSafe := by
    rw [List.filter_eq_self]
    intro c hc
    obtain ⟨c0, hc0, rfl⟩ := List.mem_map.mp hc
    exact toUrl_ne_pad (halpha c0 hc0)
  have hfp : (List.replicate (b64PadLen bs) '=').filter (fun c => !(c == '=')) = [] := by
    rw [List.filter_eq_nil_iff]
    intro c hc
    rw [List.eq_of_mem_replicate hc]
    decide
  rw [hfd, hfp, List.append_nil, List.map_map,
    show (fromUrlSafe ∘ toUrlSafe) = fun c => fromUrlSafe (toUrlSafe c) from rfl]
  have hid : ∀ l : List Char, (∀ c ∈ l, (charSext c).isSome) →
      l.map (fun c => fromUrlSafe (toUrlSafe c)) = l := by
    intro l hl
    induction l with
    | nil => rfl
    | cons a as ih =>
      rw [List.map_cons, fromUrl_toUrl (hl a (List.mem_cons_self a as)),
        ih (fun x hx => hl x (List.mem_cons_of_mem a hx))]
  rw [hid _ halpha, rePad]
  rcases hlp with ⟨h4, hp⟩ | ⟨h4, hp⟩ | ⟨h4, hp⟩
  · rw [if_neg (by omega), hp]
    simp
  · rw [if_pos (by omega), h4, hp]
  · rw [if_pos (by omega), h4, hp]

theorem intStr_ascii (i : Int) : ∀ ch ∈ intStr i, ch.toNat < 128 := by
  intro ch hch
  have hdig : ∀ x ∈ natStr i.natAbs, x.toNat < 128 := by
    intro x hx
    have := natStr_digits i.natAbs x hx
    simp only [isDigitCh, Bool.and_eq_true, decide_eq_true_eq] at this
    omega
  rw [intStr] at hch
  split at hch
  · rcases List.mem_cons.mp hch with rfl | hch
    · decide
    · exact hdig ch hch
  · exact hdig ch hch

theorem dumpsReferral_ascii (u c : Int) (t : Nat) (h : String)
    (hh : ∀ ch ∈ h.toList, hexLowerCh ch = true) :
    ∀ ch ∈ dumpsReferral u c t h, ch.toNat < 128 := by
  have hhex : ∀ ch ∈ h.toList, ch.toNat < 128 := by
    intro ch hc
    have := hexLower_range (hh ch hc)
    omega
  rw [dumpsReferral_shape u c t h hh]
  simp only [List.forall_mem_cons, List.forall_mem_append]
  refine ⟨by decide, by decide, by decide, by decide, by decide, by decide,
    intStr_ascii u, by decide, by decide, by decide, by decide, by decide, by decide,
    by decide, intStr_ascii c, by decide, by decide, by decide, by decide, by decide,
    by decide, by decide, intStr_ascii (t : Int), by decide, by decide, by decide,
    by decide, by decide, by decide, by decide, by decide, hhex, by decide, by decide,
    by decide⟩

theorem decodePayload_generate (u c : Int) (t : Nat) (h : String)
    (hh : ∀ ch ∈ h.toList, hexLowerCh ch = true) :
    decodePayload (generate_referral_code u c t h) =
      some (.obj [("referrer_id", .int u), ("channel_id", .int c),
        ("timestamp", .int (t : Int)), ("hash", .str h)]) := by
  rw [decodePayload,
    show (generate_referral_code u c t h).toList =
      ((b64EncodeBytes (utf8Encode (dumpsReferral u c t h))).map toUrlSafe).filter
        (fun ch => !(ch == '=')) from rfl,
    code_restores_encode _ (utf8Encode_lt_256 _)]
  simp only [b64Decode_b64Encode _ (utf8Encode_lt_256 _),
    utf8Decode_utf8Encode_ascii _ (dumpsReferral_ascii u c t h hh),
    json_loads_dumps u c t h hh]

/-- **C4.**  For every pair of integer ids (and every issuance timestamp and
md5-style lowercase-hex hash string), decoding the generated referral code
succeeds and recovers the original fields: the decoded record carries
`referrer_id = referrerId` and `channel_id = channelId` (and the timestamp
and hash round-trip too). -/
theorem decode_generate_roundtrip (u c : Int) (t : Nat) (h : String)
    (hh : ∀ ch ∈ h.toList, hexLowerCh ch = true) :
    decode_referral_code (generate_referral_code u c t h) =
      some (.obj [("referrer_id", .int u), ("channel_id", .int c),
        ("timestamp", .int (t : Int)), ("hash", .str h)]) ∧
    objGet [("referrer_id", PyJson.int u), ("channel_id", PyJson.int c),
        ("timestamp", PyJson.int (t : Int)), ("hash", PyJson.str h)] "referrer_id" =
      some (.int u) ∧
    objGet [("referrer_id", PyJson.int u), ("channel_id", PyJson.int c),
        ("timestamp", PyJson.int (t : Int)), ("hash", PyJson.str h)] "channel_id" =
      some (.int c) := by
  refine ⟨?_, rfl, rfl⟩
  rw [decode_referral_code, decodePayload_generate u c t h hh]
  rfl

/-- Witness for C4 at concrete ids, including a negative Telegram-style
channel id. -/
theorem decode_generate_roundtrip_witness :
    decode_referral_code (generate_referral_code 7 (-1001897244942) 1727000000 "0fa3bc19") =
      some (.obj [("referrer_id", .int 7), ("channel_id", .int (-1001897244942)),
        ("timestamp", .int 1727000000), ("hash", .str "0fa3bc19")]) :=
  (decode_generate_roundtrip 7 (-1001897244942) 1727000000 "0fa3bc19" (by decide)).1

/-! ## C5 and C10: corruption handling and the unverified hash -/

/-- Number of positions at which two equal-length character lists differ. -/
def charDiffCount (a b : List Char) : Nat :=
  ((a.zip b).filter (fun p => !(p.1 == p.2))).length

/-- `generate_referral_code 1 2 1000 "aabbccdd"` with the single character at
index 85 substituted (`m` -> `i`), so that the embedded hash field decodes to
`"!abbccdd"` instead of `"aabbccdd"`. -/
def corruptedCode : String :=
  "eyJyZWZlcnJlcl9pZCI6IDEsICJjaGFubmVsX2lkIjogMiwgInRpbWVzdGFtcCI6IDEwMDAsICJoYXNoIjogIiFhYmJjY2RkIn0"

/-- A code whose payload is a JSON object with the three required fields but
no `hash` field at all. -/
def nohashCode : String :=
  "eyJyZWZlcnJlcl9pZCI6IDUsICJjaGFubmVsX2lkIjogLTcsICJ0aW1lc3RhbXAiOiA5OX0"

/-- **C5 counterexample.**  A character-substituted variant of the valid code
`generate_referral_code 1 2 1000 "aabbccdd"` — same length, exactly one
differing position — does NOT return the invalid result: it decodes to a
record (with a corrupted `hash` field), because `decode_referral_code` never
verifies the hash. -/
theorem decode_corrupted_substitution_cex :
    corruptedCode.toList.length =
      (generate_referral_code 1 2 1000 "aabbccdd").toList.length ∧
    charDiffCount corruptedCode.toList
      (generate_referral_code 1 2 1000 "aabbccdd").toList = 1 ∧
    decode_referral_code corruptedCode =
      some (.obj [("referrer_id", .int 1), ("channel_id", .int 2),
        ("timestamp", .int 1000), ("hash", .str "!abbccdd")]) :=
  ⟨rfl, rfl, rfl⟩

/-- **C5 (amended).**  `decode_referral_code` is total — every input yields
`none` or a record, never an exception — and it fails closed on payloads
missing a required field: any returned record contains `referrer_id`,
`channel_id` and `timestamp`.  But corrupted variants of a valid code are not
always rejected: substitutions confined to the unverified `hash` field still
decode to a record (see the counterexample). -/
theorem decode_referral_code_amended (s : String) :
    decode_referral_code s = none ∨
    ∃ v, decode_referral_code s = some v ∧
      pyContains v "referrer_id" = some true ∧
      pyContains v "channel_id" = some true ∧
      pyContains v "timestamp" = some true := by
  cases hd : decode_referral_code s with
  | none => exact Or.inl rfl
  | some v =>
    have hc := decode_some_contains hd
    exact Or.inr ⟨v, rfl, hc.1, hc.2.1, hc.2.2⟩

/-- **C10.**  `decode_referral_code` never verifies the embedded hash: for
every string whose payload decodes (base64 + UTF-8 + JSON) to an object
containing `referrer_id`, `channel_id` and `timestamp`, decoding succeeds and
returns that object unchanged — whether the `hash` field is present, absent,
or inconsistent plays no role. -/
theorem decode_no_hash_check (s : String) (kvs : List (String × PyJson))
    (hp : decodePayload s = some (.obj kvs))
    (h1 : (objGet kvs "referrer_id").isSome = true)
    (h2 : (objGet kvs "channel_id").isSome = true)
    (h3 : (objGet kvs "timestamp").isSome = true) :
    decode_referral_code s = some (.obj kvs) := by
  rw [decode_referral_code, hp]
  simp only [pyContains, h1, h2, if_true, h3]

/-- Witness for C10: a code whose payload has the three required fields and
no `hash` field at all decodes successfully. -/
theorem decode_no_hash_check_witness :
    decode_referral_code nohashCode =
      some (.obj [("referrer_id", .int 5), ("channel_id", .int (-7)),
        ("timestamp", .int 99)]) :=
  decode_no_hash_check nohashCode
    [("referrer_id", .int 5), ("channel_id", .int (-7)), ("timestamp", .int 99)]
    rfl rfl rfl rfl

end TGBot